import Mathlib

/-!
# Verification of the MT5 backtest replay/alignment engine

A shallow embedding of `backtest.py` (class `BackTest`) together with the
data-download helper, and proofs about the embedded operations.

Modelling conventions:
* Timestamps (`Open time` values and the virtual clock) are whole minutes
  since an epoch that falls on a midnight, as a `Nat`.  The Python code
  steps its `datetime` timer by `timedelta(seconds=60)` and reads
  `timer.hour` / `timer.minute`; with minute-resolution timestamps those
  fields are `(t / 60) % 24` and `t % 60`.
* Price/volume cells never enter any computation of the engine (they are
  only carried along), so they are embedded as integers.
* The pandas `DataFrame` for a chart is a list of rows; after
  `reset_index(drop=True)` the row labels are `0, 1, 2, …`, so an indexed
  frame (whose labels survive boolean filtering and label arithmetic, as
  in the alignment step) is a `List (Nat × Candle)` of (label, row) pairs
  obtained from `List.enum`.
* External collaborators are parameters: the CSV store is a function to
  `Option (List …)` (`none` = file absent), the broker fetch is a
  `Tup → Bool` of per-file outcomes, the `Trader` collaborator is opaque
  and its observable interactions (`init_chart`, `on_kline`) are recorded
  as events; `Trader.get_required_tfs()` is a `List String` parameter.
* `utils.NUM_KLINE_INIT` (warm-up constant) and `utils.tf_cron` (the
  cron-like firing rules, an insertion-ordered dict) are parameters `N`
  and `tfCron : List (String × CronRule)`.
* Python exceptions are `Except`: a raising path produces `.error` and no
  further observable events.
-/

namespace BackTest

/-- One OHLCV row of a monthly CSV file, after the `Open time` column has
been parsed to a timestamp (minutes). -/
structure Candle where
  openTime : Nat
  openP : Int
  high : Int
  low : Int
  close : Int
  volume : Int
deriving DecidableEq, Repr

/-- A tuple `(symbol, interval, year, month)` — one required data file,
as built by `BackTest.get_required_data_files`. -/
structure Tup where
  symbol : String
  interval : String
  year : Nat
  month : Nat
deriving DecidableEq, Repr

/-- One entry of a symbol's `strategies` list: only the timeframe field
`strategy["tfs"].get("tf")` is consumed by the engine; `none` models an
absent key.  (Python's `if tf:` also drops an empty string.) -/
structure StrategyCfg where
  tf : Option String
deriving DecidableEq, Repr

/-- One entry of the symbols trading configuration file. -/
structure SymbolCfg where
  symbol : String
  year : Nat
  months : List Nat
  strategies : List StrategyCfg
deriving DecidableEq, Repr

/-- The CSV store: `store symbol interval year month` is `none` when the
file is absent and `some rows` when it parses to `rows` (possibly `[]`
for a file with no data rows). -/
def Store : Type := String → String → Nat → Nat → Option (List Candle)

/-- A cron-like firing rule from `utils.tf_cron`: an optional `hour`
constraint and an optional `minute` constraint (absent = always
matches on that field). -/
structure CronRule where
  hour : Option (List Nat)
  minute : Option (List Nat)
deriving DecidableEq, Repr

/-- The guard of the replay loop body:
`("hour" not in cron_time or hour in cron_time["hour"]) and
 ("minute" not in cron_time or minute in cron_time["minute"])`,
with `hour = (t / 60) % 24` and `minute = t % 60` for a minute
timestamp `t`. -/
def cronMatches (r : CronRule) (t : Nat) : Bool :=
  (match r.hour with
    | none => true
    | some hs => decide ((t / 60) % 24 ∈ hs)) &&
  (match r.minute with
    | none => true
    | some ms => decide (t % 60 ∈ ms))

/-! ## Replay scheduler (`BackTest.backtest_bot_trader`, lines 294–313) -/

/-- One inner `for tf in required_tfs:` pass of the replay loop at clock
value `t`.  For each timeframe whose rule matches, the head of its replay
frame is popped (`tfs_chart[tf][:1]` / `tfs_chart[tf][1:]`) and an
`on_kline(tf, last_kline)` call is recorded as the event `(t, tf, last_kline)`
— note the call happens even when the frame is already empty, in which
case `last_kline = []`. -/
def tickFire (tfCron : List (String × CronRule)) (t : Nat) :
    List String → (String → List α) →
    ((String → List α) × List (Nat × String × List α))
  | [], charts => (charts, [])
  | tf :: rest, charts =>
    let r := (tfCron.lookup tf).getD ⟨none, none⟩
    if cronMatches r t then
      let lastKline := (charts tf).take 1
      let charts' : String → List α :=
        fun s => if s = tf then (charts tf).drop 1 else charts s
      let out := tickFire tfCron t rest charts'
      (out.1, (t, tf, lastKline) :: out.2)
    else
      tickFire tfCron t rest charts

/-- The `while timer <= end_time:` loop, with the number of remaining
iterations made explicit: each iteration advances the clock by one minute
and runs `tickFire` at the new clock value. -/
def replayAux (tfCron : List (String × CronRule)) (requiredTfs : List String) :
    Nat → Nat → (String → List α) →
    ((String → List α) × List (Nat × String × List α))
  | 0, _, charts => (charts, [])
  | fuel + 1, timer, charts =>
    let t := timer + 1
    let tick := tickFire tfCron t requiredTfs charts
    let rest := replayAux tfCron requiredTfs fuel t tick.1
    (rest.1, tick.2 ++ rest.2)

/-- The replay loop from `timer = max_time` up to `end_time`: the body runs
once for every clock value `timer + 1, …, end_time + 1` (the `while`
condition is tested before the increment), i.e. `end_time + 1 - timer`
times. -/
def replayRun (tfCron : List (String × CronRule)) (requiredTfs : List String)
    (timer endTime : Nat) (charts : String → List α) :
    ((String → List α) × List (Nat × String × List α)) :=
  replayAux tfCron requiredTfs (endTime + 1 - timer) timer charts

/-- All candles delivered (as `on_kline` payload rows) for timeframe `tf`
over a trace, in call order. -/
def deliveredFor (trace : List (Nat × String × List α)) (tf : String) : List α :=
  (trace.filter (fun e => e.2.1 == tf)).flatMap (fun e => e.2.2)

/-- The `on_kline` calls made for timeframe `tf` over a trace. -/
def callsFor (trace : List (Nat × String × List α)) (tf : String) :
    List (Nat × String × List α) :=
  trace.filter (fun e => e.2.1 == tf)

/-! ## Monthly data store (`load_mt5_klines_monthly_data`, lines 41–51) -/

/-- The constant `CANDLE_COLUMNS`: the column contract of a monthly file. -/
def CANDLE_COLUMNS : List String :=
  ["Open time", "Open", "High", "Low", "Close", "Volume"]

/-- A typed frame: its column list and its rows. -/
structure Frame where
  columns : List String
  rows : List Candle
deriving DecidableEq, Repr

/-- The empty, correctly-typed frame
`pd.DataFrame(columns=["Open time", "Open", "High", "Low", "Close", "Volume"])`. -/
def emptyFrame : Frame := ⟨CANDLE_COLUMNS, []⟩

/-- A raw CSV row before `pd.to_datetime` has parsed the `Open time`
column; `time = none` models an unparseable cell (where `to_datetime`
would raise). -/
structure RawRow where
  time : Option Nat
  openP : Int
  high : Int
  low : Int
  close : Int
  volume : Int
deriving DecidableEq, Repr

/-- Embeds `df["Open time"] = pd.to_datetime(df["Open time"])`: parse every row's
time cell, failing if any cell is unparseable. -/
def parseTimes : List RawRow → Except String (List Candle)
  | [] => .ok []
  | row :: rest =>
    match row.time with
    | none => .error "to_datetime"
    | some t =>
      match parseTimes rest with
      | .error e => .error e
      | .ok cs =>
        .ok (⟨t, row.openP, row.high, row.low, row.close, row.volume⟩ :: cs)

/-- Embeds `load_mt5_klines_monthly_data`, over the parsed content of the single
file it reads (`none` = `os.path.exists` false): a missing file and a file
with zero data rows both return the empty typed frame; otherwise the time
column is parsed and the frame returned. -/
def loadMt5KlinesMonthlyData (file : Option (List RawRow)) : Except String Frame :=
  match file with
  | none => .ok emptyFrame
  | some rows =>
    if rows.length = 0 then .ok emptyFrame
    else (parseTimes rows).map (fun cs => ⟨CANDLE_COLUMNS, cs⟩)

/-! ## Requirement resolver (`get_required_data_files`, lines 56–80) -/

/-- Embeds `strategy["tfs"].get("tf")` followed by the `if tf:` truthiness test:
`None` and the empty string are dropped. -/
def truthyTf (s : StrategyCfg) : Option String :=
  match s.tf with
  | none => none
  | some t => if t = "" then none else some t

/-- The `intervals` set collected for one symbol entry
(`intervals = set(); …; intervals.add(tf)`). -/
def symbolIntervals (cfg : SymbolCfg) : Finset String :=
  (cfg.strategies.filterMap truthyTf).toFinset

/-- The tuples one symbol entry adds to `required_files`:
the cartesian product of its distinct truthy timeframes with its months,
tagged with its symbol and year. -/
def requiredForSymbol (cfg : SymbolCfg) : Finset Tup :=
  (symbolIntervals cfg ×ˢ cfg.months.toFinset).image
    (fun p => ⟨cfg.symbol, p.1, cfg.year, p.2⟩)

/-- Embeds `get_required_data_files`: the union over all symbol entries. -/
def getRequiredDataFiles (cfgs : List SymbolCfg) : Finset Tup :=
  cfgs.foldl (fun acc cfg => acc ∪ requiredForSymbol cfg) ∅

/-- The same tuples as an explicit list (one canonical enumeration of the
Python set, whose iteration order is unspecified): per symbol, each
distinct truthy timeframe paired with each month, deduplicated across the
whole configuration. -/
def requiredList (cfgs : List SymbolCfg) : List Tup :=
  (cfgs.flatMap (fun cfg =>
    (cfg.strategies.filterMap truthyTf).dedup.flatMap
      (fun i => cfg.months.map (fun m => ⟨cfg.symbol, i, cfg.year, m⟩)))).dedup

/-! ## Data provisioner (`check_data_files_exist`, `download_missing_data`,
`ensure_data_files`, lines 82–95, 119–159, 209–226) -/

/-- Embeds `check_data_files_exist`: the required tuples whose file is not
present in storage (`present` is `os.path.exists` on the tuple's
filename). -/
def missingFiles (cfgs : List SymbolCfg) (present : Tup → Bool) : List Tup :=
  (requiredList cfgs).filter (fun t => !present t)

/-- One step of building `files_by_symbol`: append the tuple to its
symbol's group, creating the group at the end on first sight (Python
dicts preserve insertion order). -/
def insertGrouped : List (String × List Tup) → Tup → List (String × List Tup)
  | [], t => [(t.symbol, [t])]
  | (s, ts) :: rest, t =>
    if s = t.symbol then (s, ts ++ [t]) :: rest
    else (s, ts) :: insertGrouped rest t

/-- Embeds `files_by_symbol`, grouping the missing tuples by symbol. -/
def groupBySymbol (missing : List Tup) : List (String × List Tup) :=
  missing.foldl insertGrouped []

/-- The `_download_monthly_data` calls `download_missing_data` makes, in
order: the grouped missing tuples flattened. -/
def downloadAttempts (missing : List Tup) : List Tup :=
  (groupBySymbol missing).flatMap Prod.snd

/-- Embeds `download_missing_data` over a list of missing tuples.  `cfgProvided`
is `self.exchange_config_file is not None`, `mt5CfgOk` is
`"mt5" in exchange_configs`, `mt5InitOk` is `initialize_mt5(...)`, and
`fetch` gives each tuple's `_download_monthly_data` outcome.  Returns the
verdict (`successful == total`) and the list of fetches attempted. -/
def downloadMissingData (cfgProvided mt5CfgOk mt5InitOk : Bool)
    (fetch : Tup → Bool) (missing : List Tup) : Bool × List Tup :=
  if !cfgProvided then (false, [])
  else if !mt5CfgOk then (false, [])
  else if !mt5InitOk then (false, [])
  else
    let attempts := downloadAttempts missing
    let successful := (attempts.filter fetch).length
    (successful = missing.length, attempts)

/-- Embeds `ensure_data_files`: success with no fetch when nothing is missing;
otherwise refuse without an exchange config, else download the missing
tuples. -/
def ensureDataFiles (cfgs : List SymbolCfg) (present : Tup → Bool)
    (cfgProvided mt5CfgOk mt5InitOk : Bool) (fetch : Tup → Bool) :
    Bool × List Tup :=
  let missing := missingFiles cfgs present
  if missing.length = 0 then (true, [])
  else if !cfgProvided then (false, [])
  else downloadMissingData cfgProvided mt5CfgOk mt5InitOk fetch missing

/-! ## Loading and alignment (`backtest_bot_trader`, lines 228–291) -/

/-- Errors raised by `backtest_bot_trader` (the two `ValueError`s, plus
`max()` over no timeframes). -/
inductive BtError where
  | noData (symbol tf : String)
  | insufficientData (symbol tf : String) (found need : Nat)
  | emptyRequired
deriving DecidableEq, Repr

/-- Embeds `load_klines_monthly_data` as seen by the backtest loop: the rows of
the month's file, `[]` when the file is absent or has no data rows
(cf. `loadMt5KlinesMonthlyData`, whose empty frame has no rows). -/
def loadKlinesMonthlyData (store : Store) (symbol interval : String)
    (month year : Nat) : List Candle :=
  (store symbol interval year month).getD []

/-- Candle ordering by the `Open time` column. -/
def timeLE (a b : Candle) : Prop := a.openTime ≤ b.openTime

instance : DecidableRel timeLE := fun a b => Nat.decLe a.openTime b.openTime

instance : IsTotal Candle timeLE := ⟨fun a b => Nat.le_total a.openTime b.openTime⟩

instance : IsTrans Candle timeLE := ⟨fun _ _ _ => Nat.le_trans⟩

/-- Embeds `chart_df.sort_values("Open time")`.  Both pandas' sort and
Python's `sorted` are stable; they are embedded as the stable
`List.insertionSort`. -/
def sortValuesOpenTime (chart : List Candle) : List Candle :=
  chart.insertionSort timeLE

/-- Load one timeframe's chart: every configured month in sorted order,
keeping the non-empty ones; raise `noData` if none is non-empty, else
concatenate, sort by `Open time` and check the warm-up minimum `N`
(`NUM_KLINE_INIT`). -/
def backtestLoadTf (store : Store) (cfg : SymbolCfg) (N : Nat) (tf : String) :
    Except BtError (List Candle) :=
  let monthlyData :=
    ((cfg.months.insertionSort (· ≤ ·)).map
      (fun m => loadKlinesMonthlyData store cfg.symbol tf m cfg.year)).filter
      (fun d => decide (0 < d.length))
  if monthlyData.length = 0 then .error (.noData cfg.symbol tf)
  else
    let chartDf := sortValuesOpenTime monthlyData.flatten
    if chartDf.length < N then
      .error (.insufficientData cfg.symbol tf chartDf.length N)
    else .ok chartDf

/-- The `for tf in bot_trader.get_required_tfs():` loading loop, stopping
at the first raising timeframe. -/
def loadAllTfs (store : Store) (cfg : SymbolCfg) (N : Nat) :
    List String → Except BtError (List (String × List Candle))
  | [] => .ok []
  | tf :: rest =>
    match backtestLoadTf store cfg N tf with
    | .error e => .error e
    | .ok chart =>
      match loadAllTfs store cfg N rest with
      | .error e => .error e
      | .ok charts => .ok ((tf, chart) :: charts)

/-- Embeds `chart.iloc[i]["Open time"]` for a zero-indexed chart (total with a
default; every use is guarded by the warm-up length check). -/
def openTimeIdx (chart : List Candle) (i : Nat) : Nat :=
  ((chart[i]?).map Candle.openTime).getD 0

/-- Embeds `chart.iloc[-1]["Open time"]`. -/
def lastOpenTime (chart : List Candle) : Nat :=
  ((chart.getLast?).map Candle.openTime).getD 0

/-- Python's `max` over a non-empty list of minute timestamps. -/
def listMax : List Nat → Nat
  | [] => 0
  | a :: rest => max (listMax rest) a

/-- Embeds the slice `frame[-n:]`. -/
def takeLast (n : Nat) (l : List α) : List α :=
  l.drop (l.length - n)

/-- Partition one timeframe's chart at `maxTime`
(lines 286–290): boolean-filter the labelled frame into the rows with
`Open time <= max_time` (keeping the last `N`) and the rows with
`Open time > max_time`, then subtract the init slice's first label from
both slices' labels. -/
def alignTf (N maxTime : Nat) (chart : List Candle) :
    List (Nat × Candle) × List (Nat × Candle) :=
  let indexed := chart.enum
  let le := indexed.filter (fun p => decide (p.2.openTime ≤ maxTime))
  let initS := takeLast N le
  let replayS := indexed.filter (fun p => decide (maxTime < p.2.openTime))
  let startIndex := ((initS.head?).map Prod.fst).getD 0
  (initS.map (fun p => (p.1 - startIndex, p.2)),
   replayS.map (fun p => (p.1 - startIndex, p.2)))

/-- The alignment step (lines 282–290): `max_time` (the global alignment
instant), `end_time` (the terminal replay bound) and each timeframe's
partitioned chart. -/
def alignSymbol (N : Nat) (charts : List (String × List Candle)) :
    Except BtError
      (Nat × Nat × List (String × (List (Nat × Candle) × List (Nat × Candle)))) :=
  if charts.isEmpty then .error .emptyRequired
  else
    let maxTime := listMax (charts.map (fun p => openTimeIdx p.2 (N - 1)))
    let endTime := listMax (charts.map (fun p => lastOpenTime p.2))
    .ok (maxTime, endTime, charts.map (fun p => (p.1, alignTf N maxTime p.2)))

/-- The observable interactions of one symbol's backtest with the opaque
`Trader` collaborator: the `init_chart` argument, the `on_kline` calls in
order, and the final per-timeframe replay frames. -/
structure RunEvents where
  initChart : List (String × List (Nat × Candle))
  trace : List (Nat × String × List (Nat × Candle))
  finalCharts : String → List (Nat × Candle)

/-- Embeds `backtest_bot_trader`: load every required timeframe, align, hand the
init slices to `init_chart`, then replay minute by minute from `max_time`
to `end_time` over the timeframes of `tf_cron` that the trader requires. -/
def backtestBotTrader (store : Store) (N : Nat)
    (tfCron : List (String × CronRule)) (traderTfs : List String)
    (cfg : SymbolCfg) : Except BtError RunEvents :=
  match loadAllTfs store cfg N traderTfs with
  | .error e => .error e
  | .ok charts =>
    match alignSymbol N charts with
    | .error e => .error e
    | .ok (maxTime, endTime, aligned) =>
      let tfsChartInit := aligned.map (fun p => (p.1, p.2.1))
      let replayCharts : String → List (Nat × Candle) :=
        fun tf => ((aligned.lookup tf).map Prod.snd).getD []
      let requiredTfs :=
        (tfCron.map Prod.fst).filter (fun k => decide (k ∈ traderTfs))
      let run := replayRun tfCron requiredTfs maxTime endTime replayCharts
      .ok ⟨tfsChartInit, run.2, run.1⟩

/-! ## `start` (lines 315–332) -/

/-- The `for symbol_cfg in symbols_config:` loop of `start`, with its
counter `c`: backtest each entry, append the result, and break once two
symbols have been backtested. -/
def startLoop (store : Store) (N : Nat) (tfCron : List (String × CronRule))
    (traderTfsOf : SymbolCfg → List String) :
    List SymbolCfg → Nat → Except BtError (List (String × RunEvents))
  | [], _ => .ok []
  | cfg :: rest, c =>
    match backtestBotTrader store N tfCron (traderTfsOf cfg) cfg with
    | .error e => .error e
    | .ok ev =>
      if c + 1 ≥ 2 then .ok [(cfg.symbol, ev)]
      else
        match startLoop store N tfCron traderTfsOf rest (c + 1) with
        | .error e => .error e
        | .ok evs => .ok ((cfg.symbol, ev) :: evs)

/-- Embeds `BackTest.start`: provision data first; an unsatisfied provisioning
check aborts with no backtest, otherwise run the capped symbol loop. -/
def start (store : Store) (N : Nat) (tfCron : List (String × CronRule))
    (traderTfsOf : SymbolCfg → List String) (cfgs : List SymbolCfg)
    (present : Tup → Bool) (cfgProvided mt5CfgOk mt5InitOk : Bool)
    (fetch : Tup → Bool) : Except BtError (List (String × RunEvents)) :=
  if (ensureDataFiles cfgs present cfgProvided mt5CfgOk mt5InitOk fetch).1 then
    startLoop store N tfCron traderTfsOf cfgs 0
  else .ok []

/-! ## Lemmas: projecting the replay scheduler onto one timeframe -/

/-- The clock values among the `fuel` ticks following `timer` at which
rule `r` fires. -/
def matchTimes (r : CronRule) (fuel timer : Nat) : List Nat :=
  (List.range' (timer + 1) fuel).filter (cronMatches r)

/-- How many of the `fuel` ticks following `timer` fire rule `r`. -/
def matchCount (r : CronRule) (fuel timer : Nat) : Nat :=
  (matchTimes r fuel timer).length

theorem matchTimes_succ (r : CronRule) (fuel timer : Nat) :
    matchTimes r (fuel + 1) timer =
      if cronMatches r (timer + 1) then
        (timer + 1) :: matchTimes r fuel (timer + 1)
      else matchTimes r fuel (timer + 1) := by
  simp only [matchTimes, List.range'_succ, List.filter_cons]

theorem deliveredFor_append (a b : List (Nat × String × List α)) (tf : String) :
    deliveredFor (a ++ b) tf = deliveredFor a tf ++ deliveredFor b tf := by
  simp [deliveredFor, List.filter_append]

theorem callsFor_append (a b : List (Nat × String × List α)) (tf : String) :
    callsFor (a ++ b) tf = callsFor a tf ++ callsFor b tf := by
  simp [callsFor, List.filter_append]

theorem deliveredFor_eq_callsFor (trace : List (Nat × String × List α))
    (tf : String) :
    deliveredFor trace tf = (callsFor trace tf).flatMap (fun e => e.2.2) := rfl

theorem callsFor_cons (t : Nat) (s tf : String) (k : List α)
    (tr : List (Nat × String × List α)) :
    callsFor ((t, s, k) :: tr) tf =
      if s = tf then (t, s, k) :: callsFor tr tf else callsFor tr tf := by
  simp only [callsFor, List.filter_cons]
  by_cases h : s = tf
  · simp [h]
  · simp [h]

/-- A timeframe not iterated over is untouched by one tick: its frame is
unchanged and no `on_kline` call mentions it. -/
theorem tickFire_not_mem (tfCron : List (String × CronRule)) (t : Nat)
    (L : List String) (charts : String → List α) (tf : String) (h : tf ∉ L) :
    (tickFire tfCron t L charts).1 tf = charts tf ∧
      callsFor (tickFire tfCron t L charts).2 tf = [] := by
  induction L generalizing charts with
  | nil => exact ⟨rfl, rfl⟩
  | cons a rest ih =>
    have ha : a ≠ tf := fun e => h (e ▸ List.mem_cons_self a rest)
    have hrest : tf ∉ rest := fun e => h (List.mem_cons_of_mem _ e)
    simp only [tickFire]
    split
    · have hu := ih (fun s => if s = a then (charts a).drop 1 else charts s) hrest
      refine ⟨?_, ?_⟩
      · rw [hu.1]
        exact if_neg (Ne.symm ha)
      · rw [callsFor_cons, if_neg ha, hu.2]
    · exact ih charts hrest

/-- For a timeframe listed exactly once whose rule matches at `t`, one
tick pops its head and records exactly one `on_kline` call carrying the
one-row slice `frame[:1]`. -/
theorem tickFire_count_one_pos (tfCron : List (String × CronRule)) (t : Nat)
    (L : List String) (charts : String → List α) (tf : String)
    (h : L.count tf = 1)
    (hm : cronMatches ((tfCron.lookup tf).getD ⟨none, none⟩) t = true) :
    (tickFire tfCron t L charts).1 tf = (charts tf).drop 1 ∧
      callsFor (tickFire tfCron t L charts).2 tf =
        [(t, tf, (charts tf).take 1)] := by
  induction L generalizing charts with
  | nil => simp at h
  | cons a rest ih =>
    by_cases hat : a = tf
    · subst hat
      have hrest : a ∉ rest := by
        rw [List.count_cons_self] at h
        exact List.count_eq_zero.mp (by omega)
      simp only [tickFire]
      split
      · have hu := tickFire_not_mem tfCron t rest
          (fun s => if s = a then (charts a).drop 1 else charts s) a hrest
        refine ⟨?_, ?_⟩
        · rw [hu.1]
          exact if_pos rfl
        · rw [callsFor_cons, if_pos rfl, hu.2]
      · next hcond => exact absurd hm hcond
    · have htfa : tf ≠ a := fun e => hat e.symm
      have hcnt : rest.count tf = 1 := by
        rwa [List.count_cons_of_ne htfa] at h
      simp only [tickFire]
      split
      · have hu := ih (fun s => if s = a then (charts a).drop 1 else charts s) hcnt
        have hcc : (fun s => if s = a then (charts a).drop 1 else charts s) tf
            = charts tf := if_neg htfa
        rw [hcc] at hu
        refine ⟨hu.1, ?_⟩
        rw [callsFor_cons, if_neg hat, hu.2]
      · exact ih charts hcnt

/-- For a timeframe listed exactly once whose rule does not match at `t`,
one tick leaves its frame unchanged and records no `on_kline` call for
it. -/
theorem tickFire_count_one_neg (tfCron : List (String × CronRule)) (t : Nat)
    (L : List String) (charts : String → List α) (tf : String)
    (h : L.count tf = 1)
    (hm : cronMatches ((tfCron.lookup tf).getD ⟨none, none⟩) t = false) :
    (tickFire tfCron t L charts).1 tf = charts tf ∧
      callsFor (tickFire tfCron t L charts).2 tf = [] := by
  induction L generalizing charts with
  | nil => simp at h
  | cons a rest ih =>
    by_cases hat : a = tf
    · subst hat
      have hrest : a ∉ rest := by
        rw [List.count_cons_self] at h
        exact List.count_eq_zero.mp (by omega)
      simp only [tickFire]
      split
      · next hcond => rw [hm] at hcond; exact absurd hcond (by simp)
      · exact tickFire_not_mem tfCron t rest charts a hrest
    · have htfa : tf ≠ a := fun e => hat e.symm
      have hcnt : rest.count tf = 1 := by
        rwa [List.count_cons_of_ne htfa] at h
      simp only [tickFire]
      split
      · have hu := ih (fun s => if s = a then (charts a).drop 1 else charts s) hcnt
        have hcc : (fun s => if s = a then (charts a).drop 1 else charts s) tf
            = charts tf := if_neg htfa
        rw [hcc] at hu
        refine ⟨hu.1, ?_⟩
        rw [callsFor_cons, if_neg hat, hu.2]
      · exact ih charts hcnt

/-- A timeframe not iterated over is untouched by the whole loop. -/
theorem replayAux_not_mem (tfCron : List (String × CronRule))
    (L : List String) (tf : String) (h : tf ∉ L) :
    ∀ (fuel timer : Nat) (charts : String → List α),
      (replayAux tfCron L fuel timer charts).1 tf = charts tf ∧
        callsFor (replayAux tfCron L fuel timer charts).2 tf = [] := by
  intro fuel
  induction fuel with
  | zero => intro timer charts; exact ⟨rfl, rfl⟩
  | succ n ih =>
    intro timer charts
    have htick := tickFire_not_mem tfCron (timer + 1) L charts tf h
    have hrest := ih (timer + 1) ((tickFire tfCron (timer + 1) L charts).1)
    simp only [replayAux]
    refine ⟨?_, ?_⟩
    · rw [hrest.1, htick.1]
    · rw [callsFor_append, htick.2, hrest.2]
      rfl

/-- Projection of the whole replay loop onto a timeframe listed exactly
once: after `fuel` ticks its frame has been popped once per matching tick,
the candles delivered for it are the corresponding prefix of its frame,
and it got exactly one `on_kline` call per matching tick. -/
theorem replayAux_count_one (tfCron : List (String × CronRule))
    (L : List String) (tf : String) (h : L.count tf = 1) (r : CronRule)
    (hr : (tfCron.lookup tf).getD ⟨none, none⟩ = r) :
    ∀ (fuel timer : Nat) (charts : String → List α),
      (replayAux tfCron L fuel timer charts).1 tf =
        (charts tf).drop (matchCount r fuel timer) ∧
      deliveredFor (replayAux tfCron L fuel timer charts).2 tf =
        (charts tf).take (matchCount r fuel timer) ∧
      (callsFor (replayAux tfCron L fuel timer charts).2 tf).length =
        matchCount r fuel timer := by
  intro fuel
  induction fuel with
  | zero =>
    intro timer charts
    simp [replayAux, callsFor, deliveredFor, matchCount, matchTimes]
  | succ n ih =>
    intro timer charts
    have hrest := ih (timer + 1) ((tickFire tfCron (timer + 1) L charts).1)
    simp only [replayAux]
    by_cases hm : cronMatches r (timer + 1) = true
    · have htick := tickFire_count_one_pos tfCron (timer + 1) L charts tf h
        (by rw [hr]; exact hm)
      have hmc : matchCount r (n + 1) timer = 1 + matchCount r n (timer + 1) := by
        simp [matchCount, matchTimes_succ, hm, Nat.add_comm]
      refine ⟨?_, ?_, ?_⟩
      · rw [hrest.1, htick.1, List.drop_drop, hmc]
      · rw [deliveredFor_append, hrest.2.1, htick.1,
          deliveredFor_eq_callsFor, htick.2, hmc, List.take_add]
        simp
      · rw [callsFor_append, List.length_append, htick.2, hrest.2.2, hmc]
        simp
    · have hmb : cronMatches r (timer + 1) = false := by
        revert hm; cases cronMatches r (timer + 1) <;> simp
      have htick := tickFire_count_one_neg tfCron (timer + 1) L charts tf h
        (by rw [hr]; exact hmb)
      have hmc : matchCount r (n + 1) timer = matchCount r n (timer + 1) := by
        simp [matchCount, matchTimes_succ, hmb]
      refine ⟨?_, ?_, ?_⟩
      · rw [hrest.1, htick.1, hmc]
      · rw [deliveredFor_append, hrest.2.1, htick.1,
          deliveredFor_eq_callsFor, htick.2, hmc]
        simp
      · rw [callsFor_append, List.length_append, htick.2, hrest.2.2, hmc]
        simp

/-! ## Lemmas: boolean filtering of a sorted labelled frame -/

/-- On a list sorted for a downward-closed predicate, filtering is taking
a prefix. -/
theorem filter_eq_take_countP (p : α → Bool) :
    ∀ {l : List α}, l.Pairwise (fun a b => p b = true → p a = true) →
      l.filter p = l.take (l.countP p)
  | [], _ => rfl
  | a :: t, h => by
    obtain ⟨hhead, htail⟩ := List.pairwise_cons.mp h
    by_cases hp : p a = true
    · rw [List.filter_cons_of_pos hp, List.countP_cons_of_pos _ _ hp,
        List.take_succ_cons, filter_eq_take_countP p htail]
    · have hall : ∀ b ∈ t, ¬p b = true := fun b hb hpb => hp (hhead b hb hpb)
      have hz : t.countP p = 0 := List.countP_eq_zero.mpr hall
      rw [List.filter_cons_of_neg hp, List.countP_cons_of_neg _ _ hp, hz,
        List.take_zero]
      exact List.filter_eq_nil_iff.mpr hall

/-- On such a list, filtering by the negated predicate is dropping that
prefix. -/
theorem filter_not_eq_drop_countP (p : α → Bool) :
    ∀ {l : List α}, l.Pairwise (fun a b => p b = true → p a = true) →
      l.filter (fun a => !p a) = l.drop (l.countP p)
  | [], _ => rfl
  | a :: t, h => by
    obtain ⟨hhead, htail⟩ := List.pairwise_cons.mp h
    by_cases hp : p a = true
    · rw [List.filter_cons_of_neg (by simp [hp]), List.countP_cons_of_pos _ _ hp,
        List.drop_succ_cons, filter_not_eq_drop_countP p htail]
    · have hall : ∀ b ∈ t, ¬p b = true := fun b hb hpb => hp (hhead b hb hpb)
      have hz : t.countP p = 0 := List.countP_eq_zero.mpr hall
      rw [List.filter_cons_of_pos (by simp [hp]), List.countP_cons_of_neg _ _ hp,
        hz, List.drop_zero]
      congr 1
      exact List.filter_eq_self.mpr (fun b hb => by simp [hall b hb])

theorem snd_mem_of_mem_enumFrom :
    ∀ {l : List α} {n : Nat} {q : Nat × α}, q ∈ l.enumFrom n → q.2 ∈ l
  | [], _, _, h => by simp at h
  | a :: t, n, q, h => by
    rw [List.enumFrom_cons] at h
    rcases List.mem_cons.mp h with h | h
    · subst h; exact List.mem_cons_self _ _
    · exact List.mem_cons_of_mem _ (snd_mem_of_mem_enumFrom h)

theorem pairwise_enumFrom {R : α → α → Prop} :
    ∀ {l : List α}, l.Pairwise R → ∀ (n : Nat),
      (l.enumFrom n).Pairwise (fun a b => R a.2 b.2)
  | [], _, _ => List.Pairwise.nil
  | a :: t, h, n => by
    obtain ⟨hhead, htail⟩ := List.pairwise_cons.mp h
    rw [List.enumFrom_cons]
    exact List.pairwise_cons.mpr
      ⟨fun q hq => hhead q.2 (snd_mem_of_mem_enumFrom hq),
       pairwise_enumFrom htail (n + 1)⟩

theorem countP_enumFrom (q : α → Bool) :
    ∀ (l : List α) (n : Nat),
      (l.enumFrom n).countP (fun x => q x.2) = l.countP q
  | [], _ => rfl
  | a :: t, n => by
    rw [List.enumFrom_cons]
    simp only [List.countP_cons, countP_enumFrom q t (n + 1)]

theorem map_snd_filter_enumFrom (q : α → Bool) :
    ∀ (l : List α) (n : Nat),
      ((l.enumFrom n).filter (fun x => q x.2)).map Prod.snd = l.filter q
  | [], _ => rfl
  | a :: t, n => by
    rw [List.enumFrom_cons]
    simp only [List.filter_cons]
    by_cases hq : q a = true
    · simp [hq, map_snd_filter_enumFrom q t (n + 1)]
    · simp [hq, map_snd_filter_enumFrom q t (n + 1)]

/-! ## Lemmas: the alignment partition -/

/-- How many rows of a chart lie at or before the alignment instant. -/
def cutoff (maxTime : Nat) (chart : List Candle) : Nat :=
  chart.countP (fun cd => decide (cd.openTime ≤ maxTime))

/-- On a time-sorted chart, the two boolean filters of the alignment step
are a prefix and the matching suffix of the labelled frame. -/
theorem alignTf_le_filter (maxTime : Nat) (chart : List Candle)
    (hs : chart.Pairwise timeLE) :
    (chart.enum).filter (fun p => decide (p.2.openTime ≤ maxTime)) =
      (chart.enum).take (cutoff maxTime chart) ∧
    (chart.enum).filter (fun p => decide (maxTime < p.2.openTime)) =
      (chart.enum).drop (cutoff maxTime chart) := by
  have hpe : (chart.enum).Pairwise (fun a b : Nat × Candle => timeLE a.2 b.2) :=
    pairwise_enumFrom hs 0
  have hdc : (chart.enum).Pairwise (fun a b : Nat × Candle =>
      decide (b.2.openTime ≤ maxTime) = true →
      decide (a.2.openTime ≤ maxTime) = true) :=
    hpe.imp (fun hab hb => by
      simp only [decide_eq_true_eq] at hb ⊢
      exact le_trans hab hb)
  have hcount : (chart.enum).countP
      (fun p : Nat × Candle => decide (p.2.openTime ≤ maxTime)) =
      cutoff maxTime chart :=
    countP_enumFrom (fun cd : Candle => decide (cd.openTime ≤ maxTime)) chart 0
  constructor
  · rw [← hcount]
    exact filter_eq_take_countP _ hdc
  · have hneg : ∀ p ∈ chart.enum, (decide (maxTime < p.2.openTime))
        = (!(decide (p.2.openTime ≤ maxTime))) := by
      intro p _
      rcases le_or_lt p.2.openTime maxTime with h | h
      · simp [h, Nat.not_lt.mpr h]
      · simp [h, Nat.not_le.mpr h]
    rw [List.filter_congr hneg, ← hcount]
    exact filter_not_eq_drop_countP _ hdc

/-- The rows at or before the alignment instant include at least the
warm-up window whenever the instant is at or after the warm-up row. -/
theorem cutoff_ge (chart : List Candle) (maxTime N : Nat)
    (hs : chart.Pairwise timeLE) (hN : 0 < N) (hlen : N ≤ chart.length)
    (hidx : openTimeIdx chart (N - 1) ≤ maxTime) :
    N ≤ cutoff maxTime chart := by
  have hN1 : N - 1 < chart.length := by omega
  have hval : openTimeIdx chart (N - 1) = chart[N - 1].openTime := by
    simp [openTimeIdx, List.getElem?_eq_getElem hN1]
  have hall : ∀ cd ∈ chart.take N, cd.openTime ≤ maxTime := by
    intro cd hcd
    obtain ⟨i, hi, hget⟩ := List.mem_iff_getElem.mp hcd
    have hiN : i < N := by
      have := hi
      simp [List.length_take] at this
      omega
    have hilen : i < chart.length := by
      have := hi
      simp [List.length_take] at this
      omega
    have hgi : (chart.take N)[i] = chart[i] := List.getElem_take chart
    have hle : chart[i].openTime ≤ chart[N - 1].openTime := by
      rcases Nat.lt_or_ge i (N - 1) with hlt | hge
      · exact List.pairwise_iff_getElem.mp hs i (N - 1) hilen hN1 hlt
      · have : i = N - 1 := by omega
        subst this
        exact Nat.le_refl _
    rw [← hget, hgi]
    exact le_trans hle (hval ▸ hidx)
  have htake : (chart.take N).countP (fun cd => decide (cd.openTime ≤ maxTime))
      = (chart.take N).length :=
    List.countP_eq_length.mpr (fun cd hcd => by simp [hall cd hcd])
  have hlen' : (chart.take N).length = N := by
    simp [List.length_take]
    omega
  calc N = (chart.take N).countP (fun cd => decide (cd.openTime ≤ maxTime)) := by
        rw [htake, hlen']
    _ ≤ cutoff maxTime chart := (List.take_sublist N chart).countP_le _

theorem enum_take_drop_head (chart : List Candle) (k N : Nat) (hN : 0 < N)
    (hkN : N ≤ k) :
    ((chart.enum.take k).drop (k - N)).head? =
      (chart[k - N]?).map (fun a => (k - N, a)) := by
  rw [List.head?_eq_getElem?, List.getElem?_drop, Nat.add_zero,
    List.getElem?_take_of_lt (by omega : k - N < k),
    List.enum_eq_enumFrom, List.getElem?_enumFrom]
  simp

theorem enum_drop_head (chart : List Candle) (k : Nat) :
    (chart.enum.drop k).head? = (chart[k]?).map (fun a => (k, a)) := by
  rw [List.head?_eq_getElem?, List.getElem?_drop, Nat.add_zero,
    List.enum_eq_enumFrom, List.getElem?_enumFrom]
  simp

/-- Closed form of the alignment partition on a sorted chart whose
warm-up row lies at or before the alignment instant: the init slice is
the `N` labelled rows before the cut (labels shifted down by the first
kept label, `k - N`), the replay slice is everything after the cut with
the same shift. -/
theorem alignTf_eq (N maxTime : Nat) (chart : List Candle)
    (hs : chart.Pairwise timeLE) (hN : 0 < N)
    (hkN : N ≤ cutoff maxTime chart) :
    alignTf N maxTime chart =
      (((chart.enum.take (cutoff maxTime chart)).drop
          (cutoff maxTime chart - N)).map
        (fun p => (p.1 - (cutoff maxTime chart - N), p.2)),
       (chart.enum.drop (cutoff maxTime chart)).map
        (fun p => (p.1 - (cutoff maxTime chart - N), p.2))) := by
  obtain ⟨hle, hgt⟩ := alignTf_le_filter maxTime chart hs
  set k := cutoff maxTime chart with hkdef
  have hkl : k ≤ chart.length := List.countP_le_length _
  have helen : chart.enum.length = chart.length := List.enum_length
  have hlelen : (chart.enum.take k).length = k := by
    rw [List.length_take, helen]
    omega
  have htakeLast : takeLast N (chart.enum.filter
      (fun p => decide (p.2.openTime ≤ maxTime))) =
      (chart.enum.take k).drop (k - N) := by
    rw [hle, takeLast, hlelen]
  have hkNlt : k - N < chart.length := by omega
  have hhead : ((chart.enum.take k).drop (k - N)).head? =
      some (k - N, chart[k - N]) := by
    rw [enum_take_drop_head chart k N hN hkN,
      List.getElem?_eq_getElem hkNlt]
    rfl
  have hstart :
      (((((chart.enum.take k).drop (k - N)).head?).map Prod.fst).getD 0)
        = k - N := by
    rw [hhead]
    rfl
  simp only [alignTf]
  rw [htakeLast, hgt, hstart]

/-- The alignment partition facts used by the claims: init length is the
warm-up constant, init rows lie at or before the instant, the init slice
is re-labelled from zero, the replay rows are exactly the rows after the
instant, and the replay slice's first label is the warm-up constant. -/
theorem alignTf_spec (N maxTime : Nat) (chart : List Candle)
    (hs : chart.Pairwise timeLE) (hN : 0 < N)
    (hkN : N ≤ cutoff maxTime chart) :
    (alignTf N maxTime chart).1.length = N ∧
    (∀ p ∈ (alignTf N maxTime chart).1, p.2.openTime ≤ maxTime) ∧
    ((alignTf N maxTime chart).1.head?).map Prod.fst = some 0 ∧
    (alignTf N maxTime chart).2.map Prod.snd =
      chart.filter (fun cd => decide (maxTime < cd.openTime)) ∧
    (∀ p ∈ (alignTf N maxTime chart).2, maxTime < p.2.openTime) ∧
    (∀ p, (alignTf N maxTime chart).2.head? = some p → p.1 = N) := by
  obtain ⟨hle, hgt⟩ := alignTf_le_filter maxTime chart hs
  rw [alignTf_eq N maxTime chart hs hN hkN]
  set k := cutoff maxTime chart with hkdef
  have hkl : k ≤ chart.length := List.countP_le_length _
  have helen : chart.enum.length = chart.length := List.enum_length
  have hkNlt : k - N < chart.length := by omega
  refine ⟨?_, ?_, ?_, ?_, ?_, ?_⟩
  · simp [List.length_drop, List.length_take, helen]
    omega
  · intro p hp
    simp only [List.mem_map] at hp
    obtain ⟨q, hq, rfl⟩ := hp
    have hq' : q ∈ chart.enum.take k := List.mem_of_mem_drop hq
    have hmf : q ∈ chart.enum.filter
        (fun p => decide (p.2.openTime ≤ maxTime)) := by
      rw [hle]; exact hq'
    have := List.of_mem_filter hmf
    simpa using this
  · rw [List.head?_map, enum_take_drop_head chart k N hN hkN,
      List.getElem?_eq_getElem hkNlt]
    simp
  · rw [List.map_map]
    have hcomp : (Prod.snd ∘ fun p : Nat × Candle => (p.1 - (k - N), p.2))
        = Prod.snd := rfl
    rw [hcomp, ← hgt, List.enum_eq_enumFrom,
      map_snd_filter_enumFrom (fun cd => decide (maxTime < cd.openTime))
        chart 0]
  · intro p hp
    simp only [List.mem_map] at hp
    obtain ⟨q, hq, rfl⟩ := hp
    have hmf : q ∈ chart.enum.filter
        (fun p => decide (maxTime < p.2.openTime)) := by
      rw [hgt]; exact hq
    have := List.of_mem_filter hmf
    simpa using this
  · intro p hp
    rw [List.head?_map, enum_drop_head chart k] at hp
    cases hck : chart[k]? with
    | none => rw [hck] at hp; simp at hp
    | some cd =>
      rw [hck] at hp
      have hp' : some ((k - (k - N), cd) : Nat × Candle) = some p := hp
      have hpe : p = (k - (k - N), cd) := by
        injection hp' with h
        exact h.symm
      rw [hpe]
      show k - (k - N) = N
      omega

/-! ## Lemmas: maxima, loaded charts and association-list lookups -/

theorem le_listMax {l : List Nat} {x : Nat} (h : x ∈ l) : x ≤ listMax l := by
  induction l with
  | nil => simp at h
  | cons a t ih =>
    rcases List.mem_cons.mp h with rfl | h
    · show x ≤ max (listMax t) x
      exact le_max_right _ _
    · exact le_trans (ih h) (le_max_left _ _)

theorem listMax_mem {l : List Nat} (h : l ≠ []) : listMax l ∈ l := by
  induction l with
  | nil => exact absurd rfl h
  | cons a t ih =>
    cases t with
    | nil =>
      show max (listMax []) a ∈ [a]
      simp [listMax]
    | cons b t' =>
      show max (listMax (b :: t')) a ∈ a :: b :: t'
      rcases Nat.le_total (listMax (b :: t')) a with hc | hc
      · rw [max_eq_right hc]
        exact List.mem_cons_self _ _
      · rw [max_eq_left hc]
        exact List.mem_cons_of_mem _ (ih (by simp))

theorem le_lastOpenTime {chart : List Candle} (hs : chart.Pairwise timeLE)
    {cd : Candle} (h : cd ∈ chart) : cd.openTime ≤ lastOpenTime chart := by
  induction chart with
  | nil => simp at h
  | cons a t ih =>
    obtain ⟨hhead, htail⟩ := List.pairwise_cons.mp hs
    cases t with
    | nil =>
      rcases List.mem_singleton.mp h with rfl
      simp [lastOpenTime]
    | cons b t' =>
      have hlast : lastOpenTime (a :: b :: t') = lastOpenTime (b :: t') := by
        simp [lastOpenTime, List.getLast?_cons_cons]
      rcases List.mem_cons.mp h with rfl | hmem
      · obtain ⟨x, hx, hxm⟩ : ∃ x, (b :: t').getLast? = some x ∧ x ∈ b :: t' := by
          cases hx : (b :: t').getLast? with
          | none => simp [List.getLast?_eq_none_iff] at hx
          | some x => exact ⟨x, rfl, List.mem_of_getLast?_eq_some hx⟩
        have hle := hhead x hxm
        rw [hlast]
        simpa [lastOpenTime, hx] using hle
      · rw [hlast]
        exact ih htail hmem

theorem backtestLoadTf_ok {store : Store} {cfg : SymbolCfg} {N : Nat}
    {tf : String} {chart : List Candle}
    (h : backtestLoadTf store cfg N tf = .ok chart) :
    chart.Pairwise timeLE ∧ N ≤ chart.length := by
  simp only [backtestLoadTf] at h
  split at h
  · exact absurd h (by simp)
  · split at h
    · exact absurd h (by simp)
    · next hlen =>
      have hc : chart = sortValuesOpenTime
          ((((cfg.months.insertionSort (· ≤ ·)).map
            (fun m => loadKlinesMonthlyData store cfg.symbol tf m
              cfg.year)).filter (fun d => decide (0 < d.length))).flatten) := by
        injection h with h
        exact h.symm
      constructor
      · rw [hc]
        exact List.sorted_insertionSort timeLE _
      · have := Nat.not_lt.mp hlen
        rw [hc]
        exact this

/-- Every chart in a successfully loaded batch came out of
`backtestLoadTf` for its timeframe. -/
theorem loadAllTfs_mem {store : Store} {cfg : SymbolCfg} {N : Nat} :
    ∀ {tfs : List String} {charts : List (String × List Candle)},
      loadAllTfs store cfg N tfs = .ok charts →
      ∀ q ∈ charts, backtestLoadTf store cfg N q.1 = .ok q.2
  | [], charts, h => by
    intro q hq
    simp only [loadAllTfs] at h
    injection h with h
    rw [← h] at hq
    simp at hq
  | tf :: rest, charts, h => by
    intro q hq
    simp only [loadAllTfs] at h
    cases hload : backtestLoadTf store cfg N tf with
    | error e => rw [hload] at h; exact absurd h (by simp)
    | ok chart =>
      rw [hload] at h
      cases hrest : loadAllTfs store cfg N rest with
      | error e => rw [hrest] at h; exact absurd h (by simp)
      | ok charts' =>
        rw [hrest] at h
        injection h with h
        rw [← h] at hq
        rcases List.mem_cons.mp hq with rfl | hq'
        · exact hload
        · exact loadAllTfs_mem hrest q hq'

/-- A successful `List.lookup` pinpoints a member pair. -/
theorem lookup_mem {β : Type} :
    ∀ {l : List (String × β)} {a : String} {b : β},
      l.lookup a = some b → (a, b) ∈ l
  | [], a, b, h => by simp [List.lookup] at h
  | (k, v) :: rest, a, b, h => by
    rw [List.lookup] at h
    by_cases hak : a = k
    · subst hak
      simp only [beq_self_eq_true] at h
      injection h with h
      subst h
      exact List.mem_cons_self _ _
    · have hbeq : (a == k) = false := beq_eq_false_iff_ne.mpr hak
      rw [hbeq] at h
      exact List.mem_cons_of_mem _ (lookup_mem h)

/-- Looking up through a value-mapped association list. -/
theorem lookup_map_snd {β γ : Type} (f : β → γ) (tf : String) :
    ∀ (l : List (String × β)),
      (l.map (fun p => (p.1, f p.2))).lookup tf = (l.lookup tf).map f
  | [] => rfl
  | (k, v) :: rest => by
    simp only [List.map_cons, List.lookup]
    by_cases hak : tf = k
    · subst hak
      simp only [beq_self_eq_true]
      rfl
    · have hbeq : (tf == k) = false := beq_eq_false_iff_ne.mpr hak
      rw [hbeq]
      exact lookup_map_snd f tf rest

/-- Counting distinct, in-window, rule-matching timestamps bounds the
number of matching ticks from below. -/
theorem matchCount_ge (r : CronRule) (timer endTime : Nat) (keys : List Nat)
    (hnd : keys.Nodup)
    (hmem : ∀ x ∈ keys, timer < x ∧ x ≤ endTime ∧ cronMatches r x = true) :
    keys.length ≤ matchCount r (endTime + 1 - timer) timer := by
  have hsub : keys ⊆ matchTimes r (endTime + 1 - timer) timer := by
    intro x hx
    obtain ⟨h1, h2, h3⟩ := hmem x hx
    refine List.mem_filter.mpr ⟨?_, h3⟩
    rw [List.mem_range']
    exact ⟨x - (timer + 1), by omega, by omega⟩
  exact (List.subperm_of_subset hnd hsub).length_le

/-- Successful runs of `backtestBotTrader` decompose into a successful
load, a successful alignment, and the replay loop over the aligned replay
frames. -/
theorem backtestBotTrader_ok {store : Store} {N : Nat}
    {tfCron : List (String × CronRule)} {traderTfs : List String}
    {cfg : SymbolCfg} {ev : RunEvents}
    (hrun : backtestBotTrader store N tfCron traderTfs cfg = .ok ev) :
    ∃ charts maxTime endTime aligned,
      loadAllTfs store cfg N traderTfs = .ok charts ∧
      alignSymbol N charts = .ok (maxTime, endTime, aligned) ∧
      ev.initChart = aligned.map (fun p => (p.1, p.2.1)) ∧
      ev.trace = (replayRun tfCron
        ((tfCron.map Prod.fst).filter (fun k => decide (k ∈ traderTfs)))
        maxTime endTime
        (fun tf => ((aligned.lookup tf).map Prod.snd).getD [])).2 ∧
      ev.finalCharts = (replayRun tfCron
        ((tfCron.map Prod.fst).filter (fun k => decide (k ∈ traderTfs)))
        maxTime endTime
        (fun tf => ((aligned.lookup tf).map Prod.snd).getD [])).1 := by
  simp only [backtestBotTrader] at hrun
  split at hrun
  · exact absurd hrun (by simp)
  · next charts hload =>
    split at hrun
    · exact absurd hrun (by simp)
    · next maxTime endTime aligned halign =>
      refine ⟨charts, maxTime, endTime, aligned, hload, halign, ?_, ?_, ?_⟩ <;>
        (injection hrun with hv) <;> rw [← hv]

/-! ## Concrete example data used by witnesses and counterexamples -/

/-- A candle at minute `t` with zeroed price fields. -/
def exCandle (t : Nat) : Candle := ⟨t, 0, 0, 0, 0, 0⟩

/-- A store with one `1m` monthly file of two candles for three symbols. -/
def exStoreA : Store := fun s i y m =>
  if (s = "EURUSD" ∨ s = "GBPUSD" ∨ s = "USDJPY") ∧ i = "1m" ∧ y = 2024 ∧ m = 1
  then some [exCandle 0, exCandle 1] else none

/-- A one-strategy `1m` configuration for `EURUSD`, year 2024, month 1. -/
def exCfgA : SymbolCfg := ⟨"EURUSD", 2024, [1], [⟨some "1m"⟩]⟩

/-- A rule that fires every minute (no hour and no minute constraint). -/
def exCronAlways : List (String × CronRule) := [("1m", ⟨none, none⟩)]

/-! ## C10 -/

/-- C10: a timeframe the trader requires but that is absent from the keys
of `tf_cron` is never fired by the replay loop: it receives no `on_kline`
call — hence none of its replaySlice candles is delivered — and the run
completes without error or warning (the result is still `.ok`). -/
theorem c10_absent_cron_never_fires {store : Store} {N : Nat}
    {tfCron : List (String × CronRule)} {traderTfs : List String}
    {cfg : SymbolCfg} {tf : String}
    (hrun : (backtestBotTrader store N tfCron traderTfs cfg).isOk = true)
    (_htf : tf ∈ traderTfs) (hkeys : tf ∉ tfCron.map Prod.fst) :
    (backtestBotTrader store N tfCron traderTfs cfg).map
        (fun ev => (callsFor ev.trace tf, deliveredFor ev.trace tf)) =
      .ok ([], []) := by
  cases hres : backtestBotTrader store N tfCron traderTfs cfg with
  | error e =>
    rw [hres] at hrun
    exact absurd hrun (by simp [Except.isOk, Except.toBool])
  | ok ev =>
    obtain ⟨charts, mt, et, aligned, hload, halign, hinit, htrace, hfinal⟩ :=
      backtestBotTrader_ok hres
    have hnot : tf ∉ (tfCron.map Prod.fst).filter
        (fun k => decide (k ∈ traderTfs)) :=
      fun hmem => hkeys (List.mem_of_mem_filter hmem)
    have h := replayAux_not_mem tfCron
      ((tfCron.map Prod.fst).filter (fun k => decide (k ∈ traderTfs))) tf hnot
      (et + 1 - mt) mt
      (fun s => ((aligned.lookup s).map Prod.snd).getD [])
    have hcalls : callsFor ev.trace tf = [] := by
      rw [htrace]; exact h.2
    have hdel : deliveredFor ev.trace tf = [] := by
      rw [deliveredFor_eq_callsFor, hcalls]; rfl
    simp [Except.map, hcalls, hdel]

/-- C10 witness: with `tf_cron = []` and a trader requiring `1m`, the run
succeeds and makes no `on_kline` call for `1m`. -/
theorem c10_witness :
    (backtestBotTrader exStoreA 1 [] ["1m"] exCfgA).isOk = true ∧
    ("1m" ∈ ["1m"]) ∧
    ("1m" ∉ (([] : List (String × CronRule)).map Prod.fst)) ∧
    (backtestBotTrader exStoreA 1 [] ["1m"] exCfgA).map
        (fun ev => (callsFor ev.trace "1m", deliveredFor ev.trace "1m")) =
      .ok ([], []) :=
  ⟨rfl, by decide, by simp,
   c10_absent_cron_never_fires rfl (by decide) (by simp)⟩

/-! ## C3 -/

/-- C3 counterexample: with two `1m` candles at minutes 0 and 1, a
warm-up of 1 and an always-firing rule, alignment succeeds with a
one-candle replay slice, yet the run's trace contains the event
`(2, "1m", [])`: at tick 2 the rule matched, the replay slice was already
empty, and an `on_kline` notification was still made (with an empty
slice) — the scheduler did not skip it. -/
theorem c3_counterexample :
    (loadAllTfs exStoreA exCfgA 1 ["1m"] =
      .ok [("1m", [exCandle 0, exCandle 1])]) ∧
    (alignSymbol 1 [("1m", [exCandle 0, exCandle 1])] =
      .ok (0, 1, [("1m", ([(0, exCandle 0)], [(1, exCandle 1)]))])) ∧
    ((backtestBotTrader exStoreA 1 exCronAlways ["1m"] exCfgA).map
        (fun ev => ev.trace) =
      .ok [(1, "1m", [(1, exCandle 1)]), (2, "1m", [])]) ∧
    cronMatches (⟨none, none⟩ : CronRule) 2 = true :=
  ⟨rfl, rfl, rfl, rfl⟩

/-- C3 (amended): on a tick where a timeframe's rule matches but its
replay frame is already empty, the scheduler does not skip the
notification: it still makes exactly one `on_kline` call for the
timeframe on that tick, carrying an empty slice — so no candle content is
delivered, but the collaborator is notified. -/
theorem c3_exhausted_tick_still_notifies {α : Type}
    {tfCron : List (String × CronRule)} {L : List String}
    {charts : String → List α} {tf : String} {t : Nat}
    (hcount : L.count tf = 1)
    (hmatch : cronMatches ((tfCron.lookup tf).getD ⟨none, none⟩) t = true)
    (hempty : charts tf = []) :
    callsFor (tickFire tfCron t L charts).2 tf = [(t, tf, [])] ∧
    deliveredFor (tickFire tfCron t L charts).2 tf = [] := by
  obtain ⟨h1, h2⟩ := tickFire_count_one_pos tfCron t L charts tf hcount hmatch
  rw [hempty] at h2
  refine ⟨by simpa using h2, ?_⟩
  rw [deliveredFor_eq_callsFor]
  rw [show callsFor (tickFire tfCron t L charts).2 tf = [(t, tf, [])] from
    by simpa using h2]
  rfl

/-- C3 witness: one required timeframe `1m`, always-firing rule, empty
replay frame, tick 2. -/
theorem c3_witness :
    ((["1m"] : List String).count "1m" = 1) ∧
    (cronMatches ((exCronAlways.lookup "1m").getD ⟨none, none⟩) 2 = true) ∧
    ((fun _ : String => ([] : List (Nat × Candle))) "1m" = []) ∧
    (callsFor (tickFire exCronAlways 2 ["1m"]
        (fun _ => ([] : List (Nat × Candle)))).2 "1m" = [(2, "1m", [])] ∧
     deliveredFor (tickFire exCronAlways 2 ["1m"]
        (fun _ => ([] : List (Nat × Candle)))).2 "1m" = []) :=
  ⟨by decide, by decide, rfl,
   c3_exhausted_tick_still_notifies (by decide) (by decide) rfl⟩

/-! ## Decomposing a successful alignment -/

/-- A successful `alignSymbol` returns the two maxima of the source and
partitions every chart at the global alignment instant. -/
theorem alignSymbol_ok {N : Nat} {charts : List (String × List Candle)}
    {gs ge : Nat}
    {aligned : List (String × (List (Nat × Candle) × List (Nat × Candle)))}
    (h : alignSymbol N charts = .ok (gs, ge, aligned)) :
    gs = listMax (charts.map (fun p => openTimeIdx p.2 (N - 1))) ∧
    ge = listMax (charts.map (fun p => lastOpenTime p.2)) ∧
    aligned = charts.map (fun p => (p.1, alignTf N gs p.2)) := by
  simp only [alignSymbol] at h
  split at h
  · exact absurd h (by simp)
  · injection h with h
    have h' : listMax (charts.map (fun p => openTimeIdx p.2 (N - 1))) = gs ∧
        listMax (charts.map (fun p => lastOpenTime p.2)) = ge ∧
        charts.map (fun p => (p.1, alignTf N
          (listMax (charts.map (fun p => openTimeIdx p.2 (N - 1)))) p.2))
          = aligned := by
      simpa using h
    obtain ⟨h1, h2, h3⟩ := h'
    refine ⟨h1.symm, h2.symm, ?_⟩
    rw [← h3, h1]

/-! ## C1 -/

/-- Store for the C1 counterexample, first scenario: the `1h` file has an
on-the-hour candle (10:00) and an off-hour candle (10:30). -/
def exStoreH : Store := fun s i y m =>
  if s = "EURUSD" ∧ i = "1h" ∧ y = 2024 ∧ m = 1
  then some [exCandle 600, exCandle 630] else none

/-- A one-strategy `1h` configuration. -/
def exCfgH : SymbolCfg := ⟨"EURUSD", 2024, [1], [⟨some "1h"⟩]⟩

/-- The `1h` firing rule: minute 0 of every hour. -/
def exCronH : List (String × CronRule) := [("1h", ⟨none, some [0]⟩)]

/-- Store for the C1 counterexample, second scenario: duplicate open
times (two candles both at 10:30). -/
def exStoreDup : Store := fun s i y m =>
  if s = "EURUSD" ∧ i = "1m" ∧ y = 2024 ∧ m = 1
  then some [exCandle 600, exCandle 630, exCandle 630] else none

/-- C1 counterexample.  First scenario: alignment succeeds and the `1h`
replay slice holds the 10:30 candle, but that candle's open time never
matches the minute-0 firing rule inside the replay window, so nothing is
ever delivered for `1h` — "every candle … delivered exactly once" fails.
Second scenario: with duplicate open times both 10:30 candles are
delivered, so "strictly increasing openTime order" fails.  (The
timestamps are minutes: 600 = 10:00, 630 = 10:30.) -/
theorem c1_counterexample :
    (loadAllTfs exStoreH exCfgH 1 ["1h"] =
      .ok [("1h", [exCandle 600, exCandle 630])]) ∧
    (alignSymbol 1 [("1h", [exCandle 600, exCandle 630])] =
      .ok (600, 630, [("1h", ([(0, exCandle 600)], [(1, exCandle 630)]))])) ∧
    ((backtestBotTrader exStoreH 1 exCronH ["1h"] exCfgH).map
        (fun ev => deliveredFor ev.trace "1h") = .ok []) ∧
    ((backtestBotTrader exStoreDup 1 exCronAlways ["1m"] exCfgA).map
        (fun ev => (deliveredFor ev.trace "1m").map (fun p => p.2.openTime)) =
      .ok [630, 630]) :=
  ⟨rfl, rfl, rfl, rfl⟩

/-- C1 (amended): consider a successful run and a timeframe `tf` that the
trader requires and that `tf_cron` keys exactly once with rule `r`.
Provided the open times of `tf`'s replay slice are pairwise distinct (the
CandleSeries invariant) and each of them satisfies `r`, the run delivers
for `tf` exactly its replay slice — each candle once, in order — and the
delivered open times are strictly increasing. -/
theorem c1_replay_delivers_replay_slice {store : Store} {N : Nat}
    {tfCron : List (String × CronRule)} {traderTfs : List String}
    {cfg : SymbolCfg} {charts : List (String × List Candle)} {gs ge : Nat}
    {aligned : List (String × (List (Nat × Candle) × List (Nat × Candle)))}
    {tf : String} {r : CronRule} {init replay : List (Nat × Candle)}
    (hN : 0 < N)
    (hrun : (backtestBotTrader store N tfCron traderTfs cfg).isOk = true)
    (hload : loadAllTfs store cfg N traderTfs = .ok charts)
    (halign : alignSymbol N charts = .ok (gs, ge, aligned))
    (hlk : aligned.lookup tf = some (init, replay))
    (hkeys : (tfCron.map Prod.fst).count tf = 1)
    (htf : tf ∈ traderTfs)
    (hrule : tfCron.lookup tf = some r)
    (hnodup : (replay.map (fun p => p.2.openTime)).Nodup)
    (hcron : ∀ p ∈ replay, cronMatches r p.2.openTime = true) :
    (backtestBotTrader store N tfCron traderTfs cfg).map
        (fun ev => deliveredFor ev.trace tf) = .ok replay ∧
    (replay.map (fun p => p.2.openTime)).Pairwise (· < ·) := by
  cases hres : backtestBotTrader store N tfCron traderTfs cfg with
  | error e =>
    rw [hres] at hrun
    exact absurd hrun (by simp [Except.isOk, Except.toBool])
  | ok ev =>
    obtain ⟨charts2, mt, et, aligned2, hload2, halign2, hinit, htrace, hfinal⟩ :=
      backtestBotTrader_ok hres
    rw [hload] at hload2
    injection hload2 with hc
    subst hc
    rw [halign] at halign2
    injection halign2 with ha
    have ha' : gs = mt ∧ ge = et ∧ aligned = aligned2 := by simpa using ha
    obtain ⟨hgs, hge, hal⟩ := ha'
    subst hgs
    subst hge
    subst hal
    obtain ⟨hgseq, hgeeq, haleq⟩ := alignSymbol_ok halign
    -- the looked-up chart for tf
    rw [haleq, lookup_map_snd (alignTf N gs) tf charts] at hlk
    cases hcl : charts.lookup tf with
    | none => rw [hcl] at hlk; exact absurd hlk (by simp)
    | some chart0 =>
      rw [hcl] at hlk
      have halTf : alignTf N gs chart0 = (init, replay) := by
        simpa using hlk
      have hmemc : (tf, chart0) ∈ charts := lookup_mem hcl
      have hloadTf := loadAllTfs_mem hload (tf, chart0) hmemc
      obtain ⟨hsorted, hlen⟩ := backtestLoadTf_ok hloadTf
      -- warm-up row is at or before the alignment instant
      have hidx : openTimeIdx chart0 (N - 1) ≤ gs := by
        rw [hgseq]
        exact le_listMax (List.mem_map.mpr ⟨(tf, chart0), hmemc, rfl⟩)
      have hkN : N ≤ cutoff gs chart0 :=
        cutoff_ge chart0 gs N hsorted hN hlen hidx
      obtain ⟨_, _, _, hmapsnd, hgt, _⟩ :=
        alignTf_spec N gs chart0 hsorted hN hkN
      rw [halTf] at hmapsnd hgt
      -- strict order of the replay open times
      have hpw : (replay.map (fun p => p.2.openTime)).Pairwise (· ≤ ·) := by
        have h1 : replay.map (fun p : Nat × Candle => p.2.openTime) =
            (replay.map Prod.snd).map Candle.openTime := by
          rw [List.map_map]
          rfl
        rw [h1, hmapsnd]
        have h2 : (chart0.filter
            (fun cd => decide (gs < cd.openTime))).Pairwise timeLE :=
          hsorted.filter _
        exact List.pairwise_map.mpr (h2.imp (fun hab => hab))
      have hstrict : (replay.map (fun p => p.2.openTime)).Pairwise (· < ·) := by
        have := hpw.and hnodup
        exact this.imp (fun hab => lt_of_le_of_ne hab.1 hab.2)
      refine ⟨?_, hstrict⟩
      -- the replay loop delivers the whole slice
      have hcount1 : ((tfCron.map Prod.fst).filter
          (fun k => decide (k ∈ traderTfs))).count tf = 1 := by
        rw [List.count_filter (by simpa using htf)]
        exact hkeys
      have hgetD : (tfCron.lookup tf).getD ⟨none, none⟩ = r := by
        rw [hrule]
        rfl
      have hproj := replayAux_count_one tfCron
        ((tfCron.map Prod.fst).filter (fun k => decide (k ∈ traderTfs)))
        tf hcount1 r hgetD (ge + 1 - gs) gs
        (fun s => ((aligned.lookup s).map Prod.snd).getD [])
      have hrc : ((aligned.lookup tf).map Prod.snd).getD [] = replay := by
        rw [haleq, lookup_map_snd (alignTf N gs) tf charts, hcl]
        simp [halTf]
      -- every replay open time is a matching tick in the window
      have hbound : ∀ x ∈ replay.map (fun p : Nat × Candle => p.2.openTime),
          gs < x ∧ x ≤ ge ∧ cronMatches r x = true := by
        intro x hx
        obtain ⟨p, hp, rfl⟩ := List.mem_map.mp hx
        refine ⟨hgt p hp, ?_, hcron p hp⟩
        have hp2 : p.2 ∈ chart0.filter (fun cd => decide (gs < cd.openTime)) := by
          rw [← hmapsnd]
          exact List.mem_map.mpr ⟨p, hp, rfl⟩
        have hp3 : p.2 ∈ chart0 := List.mem_of_mem_filter hp2
        have := le_lastOpenTime hsorted hp3
        refine le_trans this ?_
        rw [hgeeq]
        exact le_listMax (List.mem_map.mpr ⟨(tf, chart0), hmemc, rfl⟩)
      have hF : replay.length ≤ matchCount r (ge + 1 - gs) gs := by
        have := matchCount_ge r gs ge
          (replay.map (fun p : Nat × Candle => p.2.openTime)) hnodup hbound
        simpa using this
      have hdone : deliveredFor ev.trace tf = replay := by
        rw [htrace]
        have h2 := hproj.2.1
        rw [hrc] at h2
        calc deliveredFor (replayRun tfCron
              ((tfCron.map Prod.fst).filter (fun k => decide (k ∈ traderTfs)))
              gs ge (fun s => ((aligned.lookup s).map Prod.snd).getD [])).2 tf
            = replay.take (matchCount r (ge + 1 - gs) gs) := h2
          _ = replay := List.take_of_length_le hF
      simp [Except.map, hdone]

/-! ## C2 -/

/-- C2: after a successful load and alignment with a positive warm-up
constant, the global alignment instant is the maximum over the loaded
timeframes of the open time of the warm-up row (index `N - 1`), the
aligned output partitions each loaded chart at that instant, and for any
loaded timeframe chart: its init slice has length exactly `N`, the init
slice's last open time is at or before the instant, and — when the
replay slice is non-empty — the replay slice's first open time is
strictly after it. -/
theorem c2_alignment_invariants {store : Store} {N : Nat} {cfg : SymbolCfg}
    {traderTfs : List String} {charts : List (String × List Candle)}
    {gs ge : Nat}
    {aligned : List (String × (List (Nat × Candle) × List (Nat × Candle)))}
    {tf : String} {chart : List Candle}
    (hN : 0 < N)
    (hload : loadAllTfs store cfg N traderTfs = .ok charts)
    (halign : alignSymbol N charts = .ok (gs, ge, aligned))
    (hmem : (tf, chart) ∈ charts) :
    gs = listMax (charts.map (fun p => openTimeIdx p.2 (N - 1))) ∧
    aligned = charts.map (fun p => (p.1, alignTf N gs p.2)) ∧
    (alignTf N gs chart).1.length = N ∧
    (∀ q, (alignTf N gs chart).1.getLast? = some q → q.2.openTime ≤ gs) ∧
    (∀ q, (alignTf N gs chart).2.head? = some q → gs < q.2.openTime) := by
  obtain ⟨hgseq, hgeeq, haleq⟩ := alignSymbol_ok halign
  have hloadTf := loadAllTfs_mem hload (tf, chart) hmem
  obtain ⟨hsorted, hlen⟩ := backtestLoadTf_ok hloadTf
  have hidx : openTimeIdx chart (N - 1) ≤ gs := by
    rw [hgseq]
    exact le_listMax (List.mem_map.mpr ⟨(tf, chart), hmem, rfl⟩)
  have hkN : N ≤ cutoff gs chart := cutoff_ge chart gs N hsorted hN hlen hidx
  obtain ⟨hlen1, hmem1, _, _, hgt, _⟩ := alignTf_spec N gs chart hsorted hN hkN
  refine ⟨hgseq, haleq, hlen1, ?_, ?_⟩
  · intro q hq
    exact hmem1 q (List.mem_of_getLast?_eq_some hq)
  · intro q hq
    have hqmem : q ∈ (alignTf N gs chart).2 := by
      cases h2 : (alignTf N gs chart).2 with
      | nil => rw [h2] at hq; exact absurd hq (by simp)
      | cons a t =>
        rw [h2] at hq
        have haq : a = q := by injection hq
        rw [← haq]
        exact List.mem_cons_self _ _
    exact hgt q hqmem

/-- Store with two timeframes of `EURUSD` data: four `1m` candles at
minutes 0–3, three `5m` candles at minutes 0, 5, 10. -/
def exStoreB : Store := fun s i y m =>
  if s = "EURUSD" ∧ i = "1m" ∧ y = 2024 ∧ m = 1 then
    some [exCandle 0, exCandle 1, exCandle 2, exCandle 3]
  else if s = "EURUSD" ∧ i = "5m" ∧ y = 2024 ∧ m = 1 then
    some [exCandle 0, exCandle 5, exCandle 10]
  else none

/-- A two-strategy configuration on timeframes `1m` and `5m`. -/
def exCfgB : SymbolCfg := ⟨"EURUSD", 2024, [1], [⟨some "1m"⟩, ⟨some "5m"⟩]⟩

/-- C2 witness: the two-timeframe scenario with warm-up 2.  The
alignment instant is minute 5 (the later warm-up completion), the `5m`
init slice is exactly 2 rows ending at minute 5, and its replay slice
starts after minute 5. -/
theorem c2_witness :
    (0 < 2) ∧
    (loadAllTfs exStoreB exCfgB 2 ["1m", "5m"] =
      .ok [("1m", [exCandle 0, exCandle 1, exCandle 2, exCandle 3]),
           ("5m", [exCandle 0, exCandle 5, exCandle 10])]) ∧
    (alignSymbol 2 [("1m", [exCandle 0, exCandle 1, exCandle 2, exCandle 3]),
           ("5m", [exCandle 0, exCandle 5, exCandle 10])] =
      .ok (5, 10,
        [("1m", ([(0, exCandle 2), (1, exCandle 3)], [])),
         ("5m", ([(0, exCandle 0), (1, exCandle 5)], [(2, exCandle 10)]))])) ∧
    (("5m", [exCandle 0, exCandle 5, exCandle 10]) ∈
      [("1m", [exCandle 0, exCandle 1, exCandle 2, exCandle 3]),
       ("5m", [exCandle 0, exCandle 5, exCandle 10])]) ∧
    (5 = listMax ([("1m", [exCandle 0, exCandle 1, exCandle 2, exCandle 3]),
        ("5m", [exCandle 0, exCandle 5, exCandle 10])].map
        (fun p => openTimeIdx p.2 (2 - 1))) ∧
     [("1m", ([(0, exCandle 2), (1, exCandle 3)], [])),
      ("5m", ([(0, exCandle 0), (1, exCandle 5)], [(2, exCandle 10)]))] =
       [("1m", [exCandle 0, exCandle 1, exCandle 2, exCandle 3]),
        ("5m", [exCandle 0, exCandle 5, exCandle 10])].map
        (fun p => (p.1, alignTf 2 5 p.2)) ∧
     (alignTf 2 5 [exCandle 0, exCandle 5, exCandle 10]).1.length = 2 ∧
     (∀ q, (alignTf 2 5 [exCandle 0, exCandle 5, exCandle 10]).1.getLast?
        = some q → q.2.openTime ≤ 5) ∧
     (∀ q, (alignTf 2 5 [exCandle 0, exCandle 5, exCandle 10]).2.head?
        = some q → 5 < q.2.openTime)) :=
  ⟨by decide, rfl, rfl, by decide,
   @c2_alignment_invariants exStoreB 2 exCfgB ["1m", "5m"]
     [("1m", [exCandle 0, exCandle 1, exCandle 2, exCandle 3]),
      ("5m", [exCandle 0, exCandle 5, exCandle 10])] 5 10
     [("1m", ([(0, exCandle 2), (1, exCandle 3)], [])),
      ("5m", ([(0, exCandle 0), (1, exCandle 5)], [(2, exCandle 10)]))]
     "5m" [exCandle 0, exCandle 5, exCandle 10]
     (by decide) rfl rfl (by decide)⟩

/-- C1 witness: in the two-candle `1m` scenario with the always-firing
rule, the hypotheses of the amended claim hold and the run delivers
exactly the one-candle replay slice, in strictly increasing order. -/
theorem c1_witness :
    (0 < 1) ∧
    ((backtestBotTrader exStoreA 1 exCronAlways ["1m"] exCfgA).isOk = true) ∧
    (loadAllTfs exStoreA exCfgA 1 ["1m"] =
      .ok [("1m", [exCandle 0, exCandle 1])]) ∧
    (alignSymbol 1 [("1m", [exCandle 0, exCandle 1])] =
      .ok (0, 1, [("1m", ([(0, exCandle 0)], [(1, exCandle 1)]))])) ∧
    ([("1m", ([(0, exCandle 0)], [(1, exCandle 1)]))].lookup "1m" =
      some ([(0, exCandle 0)], [(1, exCandle 1)])) ∧
    ((exCronAlways.map Prod.fst).count "1m" = 1) ∧
    ("1m" ∈ ["1m"]) ∧
    (exCronAlways.lookup "1m" = some ⟨none, none⟩) ∧
    (([((1 : Nat), exCandle 1)].map (fun p => p.2.openTime)).Nodup) ∧
    (∀ p ∈ [((1 : Nat), exCandle 1)],
      cronMatches ⟨none, none⟩ p.2.openTime = true) ∧
    ((backtestBotTrader exStoreA 1 exCronAlways ["1m"] exCfgA).map
        (fun ev => deliveredFor ev.trace "1m") = .ok [(1, exCandle 1)] ∧
     ([((1 : Nat), exCandle 1)].map (fun p => p.2.openTime)).Pairwise (· < ·)) :=
  ⟨by decide, rfl, rfl, rfl, rfl, by decide, by decide, rfl, by decide,
   by decide,
   @c1_replay_delivers_replay_slice exStoreA 1 exCronAlways ["1m"] exCfgA
     [("1m", [exCandle 0, exCandle 1])] 0 1
     [("1m", ([(0, exCandle 0)], [(1, exCandle 1)]))] "1m" ⟨none, none⟩
     [(0, exCandle 0)] [(1, exCandle 1)]
     (by decide) rfl rfl rfl rfl (by decide) (by decide) rfl (by decide)
     (by decide)⟩

/-! ## C7 -/

/-- C7 counterexample: in the aligned two-timeframe scenario (warm-up 2,
instant minute 5), the `5m` init slice is re-indexed from zero but the
`5m` replay slice's first element has index 2 — the warm-up constant —
not 0. -/
theorem c7_counterexample :
    (alignTf 2 5 [exCandle 0, exCandle 5, exCandle 10] =
      ([(0, exCandle 0), (1, exCandle 5)], [(2, exCandle 10)])) ∧
    ((alignTf 2 5 [exCandle 0, exCandle 5, exCandle 10]).2.head?).map
        Prod.fst ≠ some 0 :=
  ⟨rfl, by decide⟩

/-- C7 (amended): after alignment partitions a sorted timeframe chart
(with its warm-up row at or before the instant), both slices are shifted
by the same offset — the init slice's original first label — so the init
slice's first element has index 0 while the replay slice's first element
(when it exists) has index `N`, the warm-up constant: the replay labels
continue the init numbering instead of restarting at zero. -/
theorem c7_reindexing {N maxTime : Nat} {chart : List Candle}
    (hs : chart.Pairwise timeLE) (hN : 0 < N)
    (hkN : N ≤ cutoff maxTime chart) :
    ((alignTf N maxTime chart).1.head?).map Prod.fst = some 0 ∧
    (∀ q, (alignTf N maxTime chart).2.head? = some q → q.1 = N) := by
  obtain ⟨_, _, hzero, _, _, hNidx⟩ := alignTf_spec N maxTime chart hs hN hkN
  exact ⟨hzero, hNidx⟩

/-- C7 witness: the `5m` chart of the two-timeframe scenario. -/
theorem c7_witness :
    (List.Pairwise timeLE [exCandle 0, exCandle 5, exCandle 10]) ∧
    (0 < 2) ∧
    (2 ≤ cutoff 5 [exCandle 0, exCandle 5, exCandle 10]) ∧
    (((alignTf 2 5 [exCandle 0, exCandle 5, exCandle 10]).1.head?).map
        Prod.fst = some 0 ∧
     (∀ q, (alignTf 2 5 [exCandle 0, exCandle 5, exCandle 10]).2.head?
        = some q → q.1 = 2)) :=
  ⟨by decide, by decide, by decide,
   c7_reindexing (by decide) (by decide) (by decide)⟩

/-! ## C4 -/

/-- The total number of candles one timeframe yields across all
configured months (missing or empty monthly files contribute zero),
i.e. the length of the concatenated chart before the warm-up check. -/
def totalCandles (store : Store) (cfg : SymbolCfg) (tf : String) : Nat :=
  (((cfg.months.insertionSort (· ≤ ·)).map
    (fun m => loadKlinesMonthlyData store cfg.symbol tf m
      cfg.year)).flatten).length

/-- Dropping the empty month frames does not change the concatenation. -/
theorem flatten_filter_nonempty (ls : List (List α)) :
    (ls.filter (fun d => decide (0 < d.length))).flatten = ls.flatten := by
  induction ls with
  | nil => rfl
  | cons a t ih =>
    by_cases ha : 0 < a.length
    · rw [List.filter_cons_of_pos (by simpa using ha), List.flatten_cons,
        List.flatten_cons, ih]
    · have hnil : a = [] := by
        cases a with
        | nil => rfl
        | cons x xs => simp at ha
      subst hnil
      rw [List.filter_cons_of_neg (by simp), List.flatten_cons, ih]
      rfl

/-- A timeframe whose total candle count is below the warm-up minimum
makes its load raise (either `noData` or `insufficientData`). -/
theorem backtestLoadTf_short {store : Store} {cfg : SymbolCfg} {N : Nat}
    {tf : String} (hshort : totalCandles store cfg tf < N) :
    (backtestLoadTf store cfg N tf).isOk = false := by
  simp only [backtestLoadTf]
  split
  · rfl
  · split
    · rfl
    · next hlen =>
      exfalso
      apply hlen
      have hlen2 : (sortValuesOpenTime ((((cfg.months.insertionSort
          (· ≤ ·)).map (fun m => loadKlinesMonthlyData store cfg.symbol tf m
            cfg.year)).filter (fun d => decide (0 < d.length))).flatten)).length
          = totalCandles store cfg tf := by
        rw [sortValuesOpenTime, (List.perm_insertionSort timeLE _).length_eq,
          flatten_filter_nonempty]
        rfl
      rw [hlen2]
      exact hshort

/-- The timeframe loading loop raises at its first failing timeframe. -/
theorem loadAllTfs_error {store : Store} {cfg : SymbolCfg} {N : Nat} :
    ∀ {tfs : List String} {tf : String}, tf ∈ tfs →
      (backtestLoadTf store cfg N tf).isOk = false →
      (loadAllTfs store cfg N tfs).isOk = false
  | [], tf, h, _ => by simp at h
  | tf0 :: rest, tf, h, hbad => by
    simp only [loadAllTfs]
    cases hload : backtestLoadTf store cfg N tf0 with
    | error e => rfl
    | ok chart =>
      rcases List.mem_cons.mp h with rfl | hmem
      · rw [hload] at hbad
        exact absurd hbad (by simp [Except.isOk, Except.toBool])
      · cases hrest : loadAllTfs store cfg N rest with
        | error e => rfl
        | ok charts =>
          have hr := loadAllTfs_error hmem hbad
          rw [hrest] at hr
          exact absurd hr (by simp [Except.isOk, Except.toBool])

/-- C4: if some required timeframe's total candle count across the
configured months is below the warm-up minimum — a timeframe with no
data at all has total 0 — the symbol's backtest raises instead of
returning: the result is an error (carrying the symbol and timeframe in
`BtError.noData` / `BtError.insufficientData`), so no `RunEvents` value
exists and in particular no `init_chart` or `on_kline` interaction ever
happened. -/
theorem c4_insufficient_warmup_fails {store : Store} {N : Nat}
    {tfCron : List (String × CronRule)} {traderTfs : List String}
    {cfg : SymbolCfg} {tf : String}
    (htf : tf ∈ traderTfs)
    (hshort : totalCandles store cfg tf < N) :
    (backtestBotTrader store N tfCron traderTfs cfg).isOk = false := by
  simp only [backtestBotTrader]
  have hl := loadAllTfs_error htf (backtestLoadTf_short hshort)
  cases hload : loadAllTfs store cfg N traderTfs with
  | error e => rfl
  | ok charts =>
    rw [hload] at hl
    exact absurd hl (by simp [Except.isOk, Except.toBool])

/-- C4 witness: two candles available but a warm-up minimum of three. -/
theorem c4_witness :
    ("1m" ∈ ["1m"]) ∧
    (totalCandles exStoreA exCfgA "1m" < 3) ∧
    ((backtestBotTrader exStoreA 3 exCronAlways ["1m"] exCfgA).isOk
      = false) :=
  ⟨by decide, by decide,
   @c4_insufficient_warmup_fails exStoreA 3 exCronAlways ["1m"] exCfgA "1m"
     (by decide) (by decide)⟩

/-! ## C8 -/

/-- C8: `load_mt5_klines_monthly_data` does not raise for a missing file
or for a file with zero data rows: in both cases it returns the empty
frame typed with exactly the columns
`Open time, Open, High, Low, Close, Volume` — the month contributes zero
candles, non-fatally. -/
theorem c8_load_missing_or_empty (file : Option (List RawRow))
    (h : file = none ∨ file = some []) :
    loadMt5KlinesMonthlyData file = .ok emptyFrame ∧
    emptyFrame.columns
      = ["Open time", "Open", "High", "Low", "Close", "Volume"] ∧
    emptyFrame.rows = [] := by
  rcases h with rfl | rfl <;> exact ⟨rfl, rfl, rfl⟩

/-- C8 witness: the missing-file case. -/
theorem c8_witness :
    ((none : Option (List RawRow)) = none ∨
      (none : Option (List RawRow)) = some []) ∧
    (loadMt5KlinesMonthlyData none = .ok emptyFrame ∧
     emptyFrame.columns
       = ["Open time", "Open", "High", "Low", "Close", "Volume"] ∧
     emptyFrame.rows = []) :=
  ⟨Or.inl rfl, c8_load_missing_or_empty none (Or.inl rfl)⟩

/-! ## C5 -/

/-- Inserting a tuple into the symbol grouping appends it to its group;
flattened back, that is a permutation of appending it at the end. -/
theorem flatMap_insertGrouped (acc : List (String × List Tup)) (t : Tup) :
    ((insertGrouped acc t).flatMap Prod.snd).Perm
      ((acc.flatMap Prod.snd) ++ [t]) := by
  induction acc with
  | nil => simp [insertGrouped]
  | cons p rest ih =>
    obtain ⟨s, ts⟩ := p
    simp only [insertGrouped]
    by_cases hs : s = t.symbol
    · rw [if_pos hs]
      simp only [List.flatMap_cons]
      rw [List.append_assoc, List.append_assoc]
      exact List.Perm.append_left ts List.perm_append_comm
    · rw [if_neg hs]
      simp only [List.flatMap_cons]
      rw [List.append_assoc]
      exact List.Perm.append_left ts ih

theorem downloadAttempts_aux (missing : List Tup) :
    ∀ acc : List (String × List Tup),
      ((missing.foldl insertGrouped acc).flatMap Prod.snd).Perm
        ((acc.flatMap Prod.snd) ++ missing) := by
  induction missing with
  | nil => intro acc; simp
  | cons m ms ih =>
    intro acc
    simp only [List.foldl_cons]
    have h1 := ih (insertGrouped acc m)
    have h2 := (flatMap_insertGrouped acc m).append_right ms
    have h3 := h1.trans h2
    have h4 : ((acc.flatMap Prod.snd) ++ [m]) ++ ms
        = (acc.flatMap Prod.snd) ++ (m :: ms) := by
      rw [List.append_assoc]
      rfl
    rw [h4] at h3
    exact h3

/-- Grouping by symbol and flattening attempts every missing tuple
exactly once (up to order). -/
theorem downloadAttempts_perm (missing : List Tup) :
    (downloadAttempts missing).Perm missing := by
  have h := downloadAttempts_aux missing []
  simpa [downloadAttempts, groupBySymbol] using h

/-- Whenever `ensure_data_files` answers true, every missing tuple's
fetch succeeded (vacuously so when nothing was missing or fetched). -/
theorem ensure_fst_true {cfgs : List SymbolCfg} {present : Tup → Bool}
    {cfgProvided mt5CfgOk mt5InitOk : Bool} {fetch : Tup → Bool}
    (h : (ensureDataFiles cfgs present cfgProvided mt5CfgOk mt5InitOk
      fetch).1 = true) :
    ∀ t ∈ missingFiles cfgs present, fetch t = true := by
  intro t hmem
  have hne : (missingFiles cfgs present).length ≠ 0 := by
    intro h0
    rw [List.length_eq_zero.mp h0] at hmem
    simp at hmem
  simp only [ensureDataFiles] at h
  rw [if_neg hne] at h
  cases cfgProvided with
  | false => simp at h
  | true =>
    simp only [downloadMissingData] at h
    cases mt5CfgOk with
    | false => simp at h
    | true =>
      cases mt5InitOk with
      | false => simp at h
      | true =>
        simp only [Bool.not_true] at h
        have h2 : ((downloadAttempts (missingFiles cfgs present)).filter
            fetch).length = (missingFiles cfgs present).length := by
          simpa using h
        have hcnt : (missingFiles cfgs present).countP fetch
            = (missingFiles cfgs present).length := by
          rw [← (downloadAttempts_perm (missingFiles cfgs present)).countP_eq
            fetch]
          rw [List.countP_eq_length_filter]
          exact h2
        exact List.countP_eq_length.mp hcnt t hmem

/-- C5 counterexample: with one required file missing from storage and no
exchange config provided, `ensure_data_files` returns false without
attempting a single fetch, so "otherwise it attempts one fetch per
missing tuple" is false as stated. -/
theorem c5_counterexample :
    (missingFiles [exCfgA] (fun _ => false) ≠ []) ∧
    (ensureDataFiles [exCfgA] (fun _ => false) false true true
      (fun _ => true) = (false, [])) :=
  ⟨by decide, rfl⟩

/-- C5 (amended): `ensure_data_files` returns true immediately with no
fetch when every required file is present.  When files are missing and an
exchange config is provided and the MT5 configuration and login succeed,
it attempts exactly one fetch per missing tuple (the attempt list is a
permutation of the missing list — an individual failure does not abort
the rest) and returns true iff every missing tuple's fetch succeeded.
When files are missing but no exchange config is provided, it returns
false without fetching.  In every case it returns true only if every
missing tuple was fetched successfully. -/
theorem c5_ensure_data_files (cfgs : List SymbolCfg) (present : Tup → Bool)
    (cfgProvided mt5CfgOk mt5InitOk : Bool) (fetch : Tup → Bool) :
    (missingFiles cfgs present = [] →
      ensureDataFiles cfgs present cfgProvided mt5CfgOk mt5InitOk fetch
        = (true, [])) ∧
    (missingFiles cfgs present ≠ [] → cfgProvided = true → mt5CfgOk = true →
      mt5InitOk = true →
      ((ensureDataFiles cfgs present cfgProvided mt5CfgOk mt5InitOk
          fetch).2).Perm (missingFiles cfgs present) ∧
        ((ensureDataFiles cfgs present cfgProvided mt5CfgOk mt5InitOk
            fetch).1 = true ↔
          ∀ t ∈ missingFiles cfgs present, fetch t = true)) ∧
    (missingFiles cfgs present ≠ [] → cfgProvided = false →
      ensureDataFiles cfgs present cfgProvided mt5CfgOk mt5InitOk fetch
        = (false, [])) ∧
    ((ensureDataFiles cfgs present cfgProvided mt5CfgOk mt5InitOk fetch).1
        = true →
      ∀ t ∈ missingFiles cfgs present, fetch t = true) := by
  refine ⟨?_, ?_, ?_, ensure_fst_true⟩
  · intro h
    simp [ensureDataFiles, h]
  · intro hne hcp hcfg hinit
    subst hcp
    subst hcfg
    subst hinit
    have hlen : (missingFiles cfgs present).length ≠ 0 := by
      intro h0
      exact hne (List.length_eq_zero.mp h0)
    have hens : ensureDataFiles cfgs present true true true fetch =
        (decide (((downloadAttempts (missingFiles cfgs present)).filter
          fetch).length = (missingFiles cfgs present).length),
         downloadAttempts (missingFiles cfgs present)) := by
      simp only [ensureDataFiles, downloadMissingData]
      rw [if_neg hlen]
      rfl
    rw [hens]
    refine ⟨downloadAttempts_perm _, ?_⟩
    simp only [decide_eq_true_eq]
    rw [← List.countP_eq_length_filter,
      (downloadAttempts_perm (missingFiles cfgs present)).countP_eq fetch,
      List.countP_eq_length]
  · intro hne hcp
    subst hcp
    have hlen : (missingFiles cfgs present).length ≠ 0 := by
      intro h0
      exact hne (List.length_eq_zero.mp h0)
    simp only [ensureDataFiles]
    rw [if_neg hlen]
    rfl

/-- C5 witness: one missing tuple, provider configured, fetch succeeds:
the attempts are a permutation of the missing list and the verdict is
true iff every missing tuple's fetch succeeded. -/
theorem c5_witness :
    (missingFiles [exCfgA] (fun _ => false) ≠ []) ∧
    (((ensureDataFiles [exCfgA] (fun _ => false) true true true
        (fun _ => true)).2).Perm (missingFiles [exCfgA] (fun _ => false)) ∧
     ((ensureDataFiles [exCfgA] (fun _ => false) true true true
        (fun _ => true)).1 = true ↔
       ∀ t ∈ missingFiles [exCfgA] (fun _ => false),
         (fun _ : Tup => true) t = true)) :=
  ⟨by decide,
   (c5_ensure_data_files [exCfgA] (fun _ => false) true true true
     (fun _ => true)).2.1 (by decide) rfl rfl rfl⟩

/-! ## C6 -/

/-- C6: for a symbol entry with duplicate-free months, the entry's
required-file contribution is exactly the product of its distinct truthy
timeframes with its months tagged with its symbol and year; its size is
|distinct timeframes| × |months|; and it is unchanged by reordering the
strategies or by duplicating a strategy entry. -/
theorem c6_required_product (cfg : SymbolCfg) (hnodup : cfg.months.Nodup) :
    (∀ t : Tup, t ∈ requiredForSymbol cfg ↔
      (t.symbol = cfg.symbol ∧ t.year = cfg.year ∧
        t.interval ∈ symbolIntervals cfg ∧ t.month ∈ cfg.months)) ∧
    (requiredForSymbol cfg).card
      = (symbolIntervals cfg).card * cfg.months.length ∧
    (∀ strategies2, strategies2.Perm cfg.strategies →
      requiredForSymbol ⟨cfg.symbol, cfg.year, cfg.months, strategies2⟩
        = requiredForSymbol cfg) ∧
    (∀ s ∈ cfg.strategies,
      requiredForSymbol ⟨cfg.symbol, cfg.year, cfg.months, s :: cfg.strategies⟩
        = requiredForSymbol cfg) := by
  refine ⟨?_, ?_, ?_, ?_⟩
  · intro t
    constructor
    · intro ht
      simp only [requiredForSymbol, Finset.mem_image] at ht
      obtain ⟨p, hp, rfl⟩ := ht
      obtain ⟨hp1, hp2⟩ := Finset.mem_product.mp hp
      exact ⟨rfl, rfl, hp1, by simpa using hp2⟩
    · rintro ⟨h1, h2, h3, h4⟩
      simp only [requiredForSymbol, Finset.mem_image]
      refine ⟨(t.interval, t.month),
        Finset.mem_product.mpr ⟨h3, by simpa using h4⟩, ?_⟩
      rw [← h1, ← h2]
  · have hinj : Function.Injective (fun p : String × Nat =>
        (⟨cfg.symbol, p.1, cfg.year, p.2⟩ : Tup)) := by
      intro p q h
      obtain ⟨p1, p2⟩ := p
      obtain ⟨q1, q2⟩ := q
      simp only [Tup.mk.injEq] at h
      simp [h.2.1, h.2.2.2]
    rw [requiredForSymbol, Finset.card_image_of_injective _ hinj,
      Finset.card_product, List.toFinset_card_of_nodup hnodup]
  · intro strategies2 hperm
    have hset : (strategies2.filterMap truthyTf).toFinset =
        (cfg.strategies.filterMap truthyTf).toFinset :=
      List.toFinset_eq_of_perm _ _ (hperm.filterMap truthyTf)
    simp only [requiredForSymbol, symbolIntervals]
    rw [hset]
  · intro s hs
    have hset : ((s :: cfg.strategies).filterMap truthyTf).toFinset =
        (cfg.strategies.filterMap truthyTf).toFinset := by
      cases hts : truthyTf s with
      | none => rw [List.filterMap_cons_none hts]
      | some v =>
        rw [List.filterMap_cons_some hts]
        have hv : v ∈ cfg.strategies.filterMap truthyTf :=
          List.mem_filterMap.mpr ⟨s, hs, hts⟩
        rw [List.toFinset_cons]
        exact Finset.insert_eq_self.mpr (by simpa using hv)
    simp only [requiredForSymbol, symbolIntervals]
    rw [hset]

/-- Configuration with a duplicate `1m` strategy, a `5m` strategy and a
timeframe-less strategy, over two months. -/
def exCfgC : SymbolCfg :=
  ⟨"EURUSD", 2024, [1, 2], [⟨some "1m"⟩, ⟨some "1m"⟩, ⟨some "5m"⟩, ⟨none⟩]⟩

/-- C6 witness: the contribution of `exCfgC` has 2 × 2 = 4 tuples and is
characterized by the product membership. -/
theorem c6_witness :
    (([1, 2] : List Nat).Nodup) ∧
    ((∀ t : Tup, t ∈ requiredForSymbol exCfgC ↔
      (t.symbol = exCfgC.symbol ∧ t.year = exCfgC.year ∧
        t.interval ∈ symbolIntervals exCfgC ∧ t.month ∈ exCfgC.months)) ∧
    (requiredForSymbol exCfgC).card
      = (symbolIntervals exCfgC).card * exCfgC.months.length ∧
    (∀ strategies2, strategies2.Perm exCfgC.strategies →
      requiredForSymbol ⟨exCfgC.symbol, exCfgC.year, exCfgC.months,
        strategies2⟩ = requiredForSymbol exCfgC) ∧
    (∀ s ∈ exCfgC.strategies,
      requiredForSymbol ⟨exCfgC.symbol, exCfgC.year, exCfgC.months,
        s :: exCfgC.strategies⟩ = requiredForSymbol exCfgC)) :=
  ⟨by decide, c6_required_product exCfgC (by decide)⟩

/-! ## C9 -/

/-- Every symbol entry's contribution is inside the provisioning check's
required set (the check covers all entries). -/
theorem requiredForSymbol_subset (cfgs : List SymbolCfg) :
    ∀ cfg ∈ cfgs, requiredForSymbol cfg ⊆ getRequiredDataFiles cfgs := by
  have haux : ∀ (l : List SymbolCfg) (acc : Finset Tup),
      acc ⊆ l.foldl (fun a cfg => a ∪ requiredForSymbol cfg) acc ∧
      ∀ cfg ∈ l, requiredForSymbol cfg ⊆
        l.foldl (fun a cfg => a ∪ requiredForSymbol cfg) acc := by
    intro l
    induction l with
    | nil =>
      intro acc
      exact ⟨Finset.Subset.refl _, by simp⟩
    | cons cfg0 t ih =>
      intro acc
      obtain ⟨h1, h2⟩ := ih (acc ∪ requiredForSymbol cfg0)
      refine ⟨?_, ?_⟩
      · exact Finset.Subset.trans Finset.subset_union_left h1
      · intro cfg hmem
        rcases List.mem_cons.mp hmem with rfl | hmem2
        · exact Finset.Subset.trans Finset.subset_union_right h1
        · exact h2 cfg hmem2
  intro cfg h
  exact (haux cfgs ∅).2 cfg h

/-- C9: when the provisioning check succeeds and the first `min n 2`
symbol backtests succeed, `start` backtests exactly the first `min n 2`
symbol entries, in configuration order, and silently skips every entry
beyond the second — although the provisioning check covered every
entry's required files. -/
theorem c9_start_caps_at_two {store : Store} {N : Nat}
    {tfCron : List (String × CronRule)} {traderTfsOf : SymbolCfg → List String}
    {cfgs : List SymbolCfg} {present : Tup → Bool}
    {cfgProvided mt5CfgOk mt5InitOk : Bool} {fetch : Tup → Bool}
    (hens : (ensureDataFiles cfgs present cfgProvided mt5CfgOk mt5InitOk
      fetch).1 = true)
    (hok : (cfgs.take 2).all (fun cfg =>
      (backtestBotTrader store N tfCron (traderTfsOf cfg) cfg).isOk)
      = true) :
    (start store N tfCron traderTfsOf cfgs present cfgProvided mt5CfgOk
        mt5InitOk fetch).map (fun evs => evs.map Prod.fst)
      = .ok ((cfgs.take 2).map SymbolCfg.symbol) ∧
    (start store N tfCron traderTfsOf cfgs present cfgProvided mt5CfgOk
        mt5InitOk fetch).map (fun evs => evs.length)
      = .ok (min cfgs.length 2) ∧
    (∀ cfg ∈ cfgs, requiredForSymbol cfg ⊆ getRequiredDataFiles cfgs) := by
  have hall := List.all_eq_true.mp hok
  have hstart : start store N tfCron traderTfsOf cfgs present cfgProvided
      mt5CfgOk mt5InitOk fetch = startLoop store N tfCron traderTfsOf cfgs 0 := by
    simp only [start]
    rw [if_pos hens]
  rw [hstart]
  cases cfgs with
  | nil => exact ⟨rfl, rfl, requiredForSymbol_subset []⟩
  | cons c1 rest1 =>
    cases rest1 with
    | nil =>
      have h1 : (backtestBotTrader store N tfCron (traderTfsOf c1) c1).isOk
          = true := hall c1 (by simp)
      cases hx1 : backtestBotTrader store N tfCron (traderTfsOf c1) c1 with
      | error e =>
        rw [hx1] at h1
        exact absurd h1 (by simp [Except.isOk, Except.toBool])
      | ok ev1 =>
        simp only [startLoop]
        rw [hx1]
        exact ⟨rfl, rfl, requiredForSymbol_subset [c1]⟩
    | cons c2 rest =>
      have h1 : (backtestBotTrader store N tfCron (traderTfsOf c1) c1).isOk
          = true := hall c1 (by simp)
      have h2 : (backtestBotTrader store N tfCron (traderTfsOf c2) c2).isOk
          = true := hall c2 (by simp)
      cases hx1 : backtestBotTrader store N tfCron (traderTfsOf c1) c1 with
      | error e =>
        rw [hx1] at h1
        exact absurd h1 (by simp [Except.isOk, Except.toBool])
      | ok ev1 =>
        cases hx2 : backtestBotTrader store N tfCron (traderTfsOf c2) c2 with
        | error e =>
          rw [hx2] at h2
          exact absurd h2 (by simp [Except.isOk, Except.toBool])
        | ok ev2 =>
          simp only [startLoop]
          rw [hx1, hx2]
          refine ⟨rfl, ?_, requiredForSymbol_subset (c1 :: c2 :: rest)⟩
          have hmin : min (c1 :: c2 :: rest).length 2 = 2 := by
            simp only [List.length_cons]
            omega
          rw [hmin]
          rfl

/-- Configurations for three symbols, each with one `1m` strategy. -/
def exCfgsThree : List SymbolCfg :=
  [⟨"EURUSD", 2024, [1], [⟨some "1m"⟩]⟩,
   ⟨"GBPUSD", 2024, [1], [⟨some "1m"⟩]⟩,
   ⟨"USDJPY", 2024, [1], [⟨some "1m"⟩]⟩]

/-- C9 witness: with three configured symbols, everything present and all
backtests succeeding, `start` backtests exactly the first two symbols. -/
theorem c9_witness :
    ((ensureDataFiles exCfgsThree (fun _ => true) true true true
      (fun _ => true)).1 = true) ∧
    ((exCfgsThree.take 2).all (fun cfg =>
      (backtestBotTrader exStoreA 1 exCronAlways ((fun _ => ["1m"]) cfg)
        cfg).isOk) = true) ∧
    ((start exStoreA 1 exCronAlways (fun _ => ["1m"]) exCfgsThree
        (fun _ => true) true true true (fun _ => true)).map
        (fun evs => evs.map Prod.fst) = .ok ["EURUSD", "GBPUSD"] ∧
     (start exStoreA 1 exCronAlways (fun _ => ["1m"]) exCfgsThree
        (fun _ => true) true true true (fun _ => true)).map
        (fun evs => evs.length) = .ok (min exCfgsThree.length 2) ∧
     (∀ cfg ∈ exCfgsThree,
        requiredForSymbol cfg ⊆ getRequiredDataFiles exCfgsThree)) := by
  refine ⟨rfl, rfl, ?_⟩
  have h := @c9_start_caps_at_two exStoreA 1 exCronAlways (fun _ => ["1m"])
    exCfgsThree (fun _ => true) true true true (fun _ => true) rfl rfl
  exact ⟨h.1, h.2.1, h.2.2⟩

end BackTest
